import Mathlib

/-!
Verification of the InkluDocs PDF accessibility pipeline
(src/backend/pdf_processor.py, src/backend/main.py) against its
natural-language specification.  The Python code is shallowly embedded:
strings are `List Char` / `String`, the regular expressions of the source
are hand-compiled into executable matchers with Python `re` backtracking
semantics, SQLite rows become structures, and the per-project orchestrator
becomes an explicit state machine.  Python `\s`, `str.strip`, `str.lower`
are modelled on their ASCII fragment, which covers every input considered
here.
-/

set_option maxRecDepth 400000
set_option maxHeartbeats 2000000

namespace InkluDocs

/-! ### String utilities with Python semantics -/

/-- Python whitespace (`\s`, `str.strip()`), ASCII fragment. -/
def pyWs (c : Char) : Bool :=
  c = ' ' || c = '\t' || c = '\n' || c = '\r' || c = '\x0b' || c = '\x0c'

/-- Python `str.lstrip()`. -/
def pyStripL (l : List Char) : List Char := l.dropWhile pyWs

/-- Python `str.rstrip()`. -/
def pyStripR (l : List Char) : List Char := (l.reverse.dropWhile pyWs).reverse

/-- Python `str.strip()`. -/
def pyStrip (l : List Char) : List Char := pyStripR (pyStripL l)

/-- Python `str.rstrip(cs)`: drop trailing characters belonging to `cs`. -/
def stripSetR (cs : List Char) (l : List Char) : List Char :=
  (l.reverse.dropWhile (fun c => cs.contains c)).reverse

/-- Python `str.lstrip(cs)`. -/
def stripSetL (cs : List Char) (l : List Char) : List Char :=
  l.dropWhile (fun c => cs.contains c)

/-- Python `str.strip(cs)`. -/
def stripSet (cs : List Char) (l : List Char) : List Char :=
  stripSetR cs (stripSetL cs l)

/-- Python `str.lower()`, ASCII fragment. -/
def lowerL (l : List Char) : List Char := l.map Char.toLower

/-- `occursAtB pat l i`: the substring of `l` starting at `i` begins with `pat`
(Python `l[i:i+len(pat)] == pat`). -/
def occursAtB (pat l : List Char) (i : Nat) : Bool :=
  decide ((l.drop i).take pat.length = pat)

/-- Python `pat in l` for a non-empty pattern. -/
def occursB (pat l : List Char) : Bool :=
  (List.range (l.length + 1)).any (occursAtB pat l)

/-- Number of (possibly overlapping) occurrence positions of `pat` in `l`. -/
def countOcc (pat l : List Char) : Nat :=
  ((Finset.range (l.length + 1)).filter (fun i => occursAtB pat l i = true)).card

/-- Python `str.find(pat)`: index of the first occurrence, `-1` if absent. -/
def findSub (pat l : List Char) : Int :=
  match (List.range (l.length + 1)).find? (fun i => occursAtB pat l i) with
  | none => -1
  | some i => i

/-- Python `str.rfind(pat)`: index of the last occurrence, `-1` if absent. -/
def rfindSub (pat l : List Char) : Int :=
  match (List.range (l.length + 1)).foldl
      (fun acc i => if occursAtB pat l i then some i else acc) none with
  | none => -1
  | some i => i

/-! ### `_combine_alt_text` (src/backend/pdf_processor.py lines 250-266) -/

/-- `MAX_ALT_TEXT_LENGTH` from pdf_processor.py. -/
def MAX_ALT_TEXT_LENGTH : Nat := 400

/-- Core of `_combine_alt_text` on character lists.  Mirrors the source:
empty alt-text gives the empty string; a long description that starts with
the first 30 characters of the stripped alt-text replaces it, otherwise the
two are concatenated with a sentence break; a text longer than 400
characters is cut at the last sentence terminator of its first 400
characters when that terminator sits past index 80 (note that the source
has no `else` branch performing the hard cut). -/
def combineCore (alt lang : List Char) : List Char :=
  if alt = [] then []
  else
    let text :=
      if lang = [] then pyStrip alt
      else
        let pre := (pyStrip alt).take 30
        if (pyStrip lang).take pre.length = pre then pyStrip lang
        else stripSetR ['.', ' '] alt ++ ['.', ' '] ++ pyStrip lang
    if MAX_ALT_TEXT_LENGTH < text.length then
      let cut := text.take MAX_ALT_TEXT_LENGTH
      let lastEnd : Int :=
        max (max (rfindSub ['.', ' '] cut) (rfindSub ['!', ' '] cut))
          (rfindSub ['?', ' '] cut)
      if 80 < lastEnd then cut.take (lastEnd + 1).toNat else text
    else text

/-- `_combine_alt_text` on `String`. -/
def combine_alt_text (alt lang : String) : String :=
  String.mk (combineCore alt.data lang.data)

/-! ### Hand-compiled regular-expression matchers

Each Python regex used by `generate_alt_text` is compiled into an
executable matcher.  `reSearch` reproduces `re.search`: start positions
are tried left to right and the first position at which the pattern
matches wins.  At a fixed start position every pattern below is
deterministic once greedy runs are taken maximally, because no character
class in these patterns overlaps the literal that follows it; the one
genuinely lazy construct (`(.+?)` before `\n|$`, and the trailing-space
backtracking it causes) is reproduced explicitly in `p7MatchAt`. -/

/-- `re.search`: try the matcher at every start position, leftmost first. -/
def reSearch (m : List Char → Option (List Char)) : List Char → Option (List Char)
  | [] => m []
  | c :: t =>
    match m (c :: t) with
    | some r => some r
    | none => reSearch m t

/-- Match a literal. -/
def expectLit (lit l : List Char) : Option (List Char) :=
  if l.take lit.length = lit then some (l.drop lit.length) else none

/-- `\s+` (greedy, at least one character). -/
def eatWs1 : List Char → Option (List Char)
  | [] => none
  | c :: t => if pyWs c then some (t.dropWhile pyWs) else none

/-- `"([^"]+)"`: an opening quote, a non-empty capture of non-quote
characters, a closing quote. -/
def quoteCap : List Char → Option (List Char × List Char)
  | '"' :: t =>
    let cap := t.takeWhile (fun c => c ≠ '"')
    match t.drop cap.length with
    | '"' :: r => if cap = [] then none else some (cap, r)
    | _ => none
  | _ => none

/-- `[Aa]lt[_-]?[Tt]ext`. -/
def altTok : List Char → Option (List Char)
  | a :: 'l' :: 't' :: rest =>
    if a = 'a' || a = 'A' then
      let rest2 := match rest with
        | c :: r => if c = '_' || c = '-' then r else rest
        | [] => rest
      match rest2 with
      | t :: 'e' :: 'x' :: 't' :: r => if t = 'T' || t = 't' then some r else none
      | _ => none
    else none
  | _ => none

/-- Alternation `(?:w1|w2|…)` followed by a continuation, with regex
backtracking: alternatives are tried in order and the first whose
continuation also succeeds wins. -/
def tryAlts (ws : List (List Char)) (k : List Char → Option (List Char × List Char)) (l : List Char) :
    Option (List Char × List Char) :=
  match ws with
  | [] => none
  | w :: rest =>
    match expectLit w l with
    | some r =>
      match k r with
      | some out => some out
      | none => tryAlts rest k l
    | none => tryAlts rest k l

/-- Pattern 1: `"alt_text":\s*"([^"]+)"`. -/
def p1MatchAt (l : List Char) : Option (List Char) :=
  match expectLit "\"alt_text\":".data l with
  | some r => (quoteCap (r.dropWhile pyWs)).map Prod.fst
  | none => none

/-- Pattern 2: `[Aa]lt[_-]?[Tt]ext:\s*"([^"]+)"`. -/
def p2MatchAt (l : List Char) : Option (List Char) :=
  match altTok l with
  | some (':' :: r) => (quoteCap (r.dropWhile pyWs)).map Prod.fst
  | _ => none

/-- Pattern 3: `[Aa]lt[_-]?[Tt]ext\s+(?:should|would|could|is|shall)\s+be\s*"([^"]+)"`. -/
def p3MatchAt (l : List Char) : Option (List Char) :=
  match altTok l with
  | some r =>
    match eatWs1 r with
    | some r2 =>
      (tryAlts ["should".data, "would".data, "could".data, "is".data, "shall".data]
        (fun r3 =>
          match eatWs1 r3 with
          | some r4 =>
            match expectLit "be".data r4 with
            | some r5 => quoteCap (r5.dropWhile pyWs)
            | none => none
          | none => none) r2).map Prod.fst
    | none => none
  | none => none

/-- Pattern 4: `the\s+alt[_-]?\s*text\s+(?:is|should be|would be)\s*"([^"]+)"`. -/
def p4MatchAt (l : List Char) : Option (List Char) :=
  match expectLit "the".data l with
  | some r =>
    match eatWs1 r with
    | some r1 =>
      match expectLit "alt".data r1 with
      | some r2 =>
        let r3 := match r2 with
          | c :: rr => if c = '_' || c = '-' then rr else r2
          | [] => r2
        match expectLit "text".data (r3.dropWhile pyWs) with
        | some r4 =>
          match eatWs1 r4 with
          | some r5 =>
            (tryAlts ["is".data, "should be".data, "would be".data]
              (fun r6 => quoteCap (r6.dropWhile pyWs)) r5).map Prod.fst
          | none => none
        | none => none
      | none => none
    | none => none
  | none => none

/-- Pattern 5: `[Aa]lt[_-]?[Tt]ext\s+(?:waere|ist|lautet|sollte sein)\s*"([^"]+)"`. -/
def p5MatchAt (l : List Char) : Option (List Char) :=
  match altTok l with
  | some r =>
    match eatWs1 r with
    | some r2 =>
      (tryAlts ["waere".data, "ist".data, "lautet".data, "sollte sein".data]
        (fun r3 => quoteCap (r3.dropWhile pyWs)) r2).map Prod.fst
    | none => none
  | none => none

/-- Pattern 6: `[Aa]lt[_-]?[Tt]ext[^"]*"([^"]{15,})"`. -/
def p6MatchAt (l : List Char) : Option (List Char) :=
  match altTok l with
  | some r =>
    let span := r.takeWhile (fun c => c ≠ '"')
    match r.drop span.length with
    | '"' :: r2 =>
      let cap := r2.takeWhile (fun c => c ≠ '"')
      match r2.drop cap.length with
      | '"' :: _ => if 15 ≤ cap.length then some cap else none
      | _ => none
    | _ => none
  | none => none

/-- Pattern 7: `[Aa]lt[_-]?[Tt]ext:\s*(.+?)(?:\n|$)` (`.` does not match a
newline).  When non-whitespace text follows, the capture runs to the first
newline or to the end; when only whitespace follows the colon, regex
backtracking over `\s*` leaves the last non-newline whitespace character
as the capture, if any. -/
def p7MatchAt (l : List Char) : Option (List Char) :=
  match altTok l with
  | some (':' :: r) =>
    let ws := r.takeWhile pyWs
    let k := r.drop ws.length
    if k = [] then
      match (ws.filter (fun c => c ≠ '\n')).getLast? with
      | some c => some [c]
      | none => none
    else some (k.takeWhile (fun c => c ≠ '\n'))
  | _ => none

/-! ### Thinking-field salvage (pdf_processor.py lines 322-376) -/

/-- The meta-phrases of the discard guard (line 347). -/
def metaPhrases : List (List Char) :=
  ["should be".data, "would be".data, "the user".data,
   "according to".data, "the rules say".data]

/-- `m.group(1).strip().strip(chr 34).strip(chr 46)` (line 345). -/
def stripCand (cap : List Char) : List Char :=
  stripSet ['.'] (stripSet ['"'] (pyStrip cap))

/-- The `for pat in alt_patterns` loop (lines 341-350): first pattern whose
stripped capture is longer than 10 characters and, after removing
surrounding whitespace, quotes and periods, contains no meta-phrase. -/
def salvageGo (thinking : List Char) :
    List (List Char → Option (List Char)) → Option (List Char)
  | [] => none
  | p :: ps =>
    match reSearch p thinking with
    | some cap =>
      if 10 < (pyStrip cap).length then
        let fa := stripCand cap
        if metaPhrases.any (fun m => occursB m (lowerL fa)) then salvageGo thinking ps
        else some fa
      else salvageGo thinking ps
    | none => salvageGo thinking ps

/-- The `alt_patterns` cascade in source order. -/
def salvageAlt (thinking : List Char) : Option (List Char) :=
  salvageGo thinking
    [p1MatchAt, p2MatchAt, p3MatchAt, p4MatchAt, p5MatchAt, p6MatchAt, p7MatchAt]

/-- ASCII fragment of `\w`. -/
def isWordChar (c : Char) : Bool := c.isAlphanum || c = '_'

/-- `"bildtyp":\s*"([^"]+)"` (line 353). -/
def t1MatchAt (l : List Char) : Option (List Char) :=
  match expectLit "\"bildtyp\":".data l with
  | some r => (quoteCap (r.dropWhile pyWs)).map Prod.fst
  | none => none

/-- One of `:` or whitespace, the class `[:\s]`. -/
def isColonWs (c : Char) : Bool := c = ':' || pyWs c

/-- `[Bb]ildtyp[:\s]+[quote]?(\w+)` (line 355), where `[quote]` is a double
or single quote. -/
def t2MatchAt (l : List Char) : Option (List Char) :=
  match l with
  | b :: 'i' :: 'l' :: 'd' :: 't' :: 'y' :: 'p' :: r =>
    if b = 'B' || b = 'b' then
      match r with
      | c :: t =>
        if isColonWs c then
          let r2 := t.dropWhile isColonWs
          let r3 := match r2 with
            | q :: rr => if q = '"' || q = Char.ofNat 39 then rr else r2
            | [] => r2
          let cap := r3.takeWhile isWordChar
          if cap = [] then none else some cap
        else none
      | [] => none
    else none
  | _ => none

/-- Ordered keyword map from line 358 (`typ_map`, insertion order). -/
def typKeywords : List (List Char × String) :=
  [("logo".data, "logo"), ("foto".data, "foto"), ("photo".data, "foto"),
   ("diagramm".data, "diagramm"), ("chart".data, "diagramm"), ("graph".data, "diagramm"),
   ("tabelle".data, "tabelle"), ("table".data, "tabelle"),
   ("screenshot".data, "screenshot"), ("banner".data, "screenshot"),
   ("icon".data, "icon"), ("dekorativ".data, "dekorativ"), ("decorative".data, "dekorativ")]

/-- First `typ_map` keyword found in the lowercased thinking text. -/
def keywordTyp (lowered : List Char) : List (List Char × String) → String
  | [] => "unbekannt"
  | (k, t) :: rest => if occursB k lowered then t else keywordTyp lowered rest

/-- The `bildtyp` heuristic of the salvage branch (lines 352-368). -/
def salvageBildtyp (thinking : List Char) : String :=
  match reSearch t1MatchAt thinking with
  | some cap => String.mk (pyStrip cap)
  | none =>
    match reSearch t2MatchAt thinking with
    | some cap => String.mk (pyStrip cap)
    | none => keywordTyp (lowerL thinking) typKeywords

/-! ### Cleaning, JSON paths, fallback (pdf_processor.py lines 313-420) -/

/-- Index of the first occurrence of `pat`, as an Option. -/
def findIdx (pat l : List Char) : Option Nat :=
  (List.range (l.length + 1)).find? (fun i => occursAtB pat l i)

/-- `re.sub("<think>.*?</think>", "", text, flags=re.DOTALL)`: repeatedly
remove the span from a `<think>` marker through the first following
`</think>` marker. -/
def stripThinkAux : Nat → List Char → List Char
  | 0, l => l
  | fuel + 1, l =>
    match findIdx "<think>".data l with
    | none => l
    | some i =>
      let rest := l.drop (i + 7)
      match findIdx "</think>".data rest with
      | none => l
      | some j => l.take i ++ stripThinkAux fuel (rest.drop (j + 8))

/-- `<think>` block removal at full fuel. -/
def stripThinkBlocks (l : List Char) : List Char := stripThinkAux (l.length + 1) l

/-- `re.finditer(braceOpen [^braces]* "alt_text" [^braces]* braceClose)`
(line 380): all non-overlapping substrings that consist of an opening
brace, brace-free text containing the quoted key `alt_text`, and a closing
brace, scanning left to right. -/
def findJsonAux : Nat → List Char → List (List Char)
  | 0, _ => []
  | _ + 1, [] => []
  | fuel + 1, c :: t =>
    if c = '{' then
      let span := t.takeWhile (fun d => d ≠ '{' && d ≠ '}')
      match t.drop span.length with
      | '}' :: r2 =>
        if occursB "\"alt_text\"".data span then
          ('{' :: (span ++ ['}'])) :: findJsonAux fuel r2
        else findJsonAux fuel t
      | _ => findJsonAux fuel t
    else findJsonAux fuel t

/-- All fenced-JSON candidate chunks of the cleaned text. -/
def findJsonChunks (l : List Char) : List (List Char) := findJsonAux (l.length + 1) l

/-- The dictionary `json.loads` can produce, restricted to the keys the
parser reads.  `none` stands for an absent (or null) key. -/
structure PJson where
  bildtyp : Option String := none
  alt_text : Option String := none
  langbeschreibung : Option String := none
  ist_dekorativ : Option Bool := none
  konfidenz : Option String := none
deriving DecidableEq, Repr

/-- The parser output record `braceOpen bildtyp, alt_text, ist_dekorativ,
konfidenz, raw_response braceClose`; `konfidenz = none` models a Python
dict without that key (the salvage, fallback and error records). -/
structure AltRecord where
  bildtyp : String
  alt_text : String
  ist_dekorativ : Bool
  konfidenz : Option String
  raw_response : String
deriving DecidableEq, Repr

/-- The record built on both JSON-parse paths (lines 383-390 and 396-403):
`parsed.get` with defaults, alt-text composition via `_combine_alt_text`. -/
def jsonRecord (p : PJson) (text : String) : AltRecord :=
  { bildtyp := p.bildtyp.getD "unbekannt"
    alt_text := combine_alt_text (p.alt_text.getD "") (p.langbeschreibung.getD "")
    ist_dekorativ := p.ist_dekorativ.getD false
    konfidenz := some (p.konfidenz.getD "mittel")
    raw_response := text }

/-- The record built on the thinking-salvage path (lines 370-376). -/
def salvageRecord (found_alt bildtyp thinking : String) : AltRecord :=
  { bildtyp := bildtyp
    alt_text := found_alt
    ist_dekorativ :=
      occursB "dekorativ".data (lowerL found_alt.data) || bildtyp == "dekorativ"
    konfidenz := none
    raw_response := thinking }

/-- The two JSON-parse strategies inside the `try` block (lines 379-403).
`jp` abstracts Python `json.loads`; `none` models a raised
`JSONDecodeError`, which the source catches and answers with the fallback
(not with the next strategy). -/
def jsonPaths (jp : String → Option PJson) (clean : List Char) (text : String) :
    Option AltRecord :=
  match (findJsonChunks clean).getLast? with
  | some chunk =>
    match jp (String.mk chunk) with
    | some p => some (jsonRecord p text)
    | none => none
  | none =>
    let s := findSub ['{'] clean
    let e := rfindSub ['}'] clean + 1
    if 0 ≤ s ∧ s < e then
      match jp (String.mk ((clean.drop s.toNat).take (e - s).toNat)) with
      | some p => if p.alt_text.isSome then some (jsonRecord p text) else none
      | none => none
    else none

/-- `re.sub(fence-json-open, "", s)`: remove every backquote fence opener
and the whitespace that follows it. -/
def subFenceJsonAux : Nat → List Char → List Char
  | 0, l => l
  | _ + 1, [] => []
  | fuel + 1, c :: t =>
    if (c :: t).take 7 = "```json".data then
      subFenceJsonAux fuel (((c :: t).drop 7).dropWhile pyWs)
    else c :: subFenceJsonAux fuel t

/-- `re.sub(ws-then-fence, "", s)`: remove every whitespace run followed by
a closing backquote fence, together with the fence. -/
def subFenceCloseAux : Nat → List Char → List Char
  | 0, l => l
  | _ + 1, [] => []
  | fuel + 1, c :: t =>
    let ws := (c :: t).takeWhile pyWs
    let rest := (c :: t).drop ws.length
    if rest.take 3 = "```".data then subFenceCloseAux fuel (rest.drop 3)
    else c :: subFenceCloseAux fuel t

/-- `re.sub(whole-brace-blob, "", s, flags=re.DOTALL)` with `^`/`$`
anchors: the string is erased exactly when, after stripping surrounding
whitespace, it starts with an opening brace and ends with a closing
brace. -/
def subBraceBlob (l : List Char) : List Char :=
  let t := pyStrip l
  match t with
  | '{' :: _ => if t.getLast? = some '}' ∧ 2 ≤ t.length then [] else l
  | _ => l

/-- The fallback text computation (lines 407-413). -/
def fallbackText (clean : List Char) : List Char :=
  let f1 := subFenceJsonAux (clean.length + 1) clean
  let f2 := subFenceCloseAux (f1.length + 1) f1
  let f3 := subBraceBlob f2
  let ft := pyStrip f3
  if ft = [] ∨ ft.length < 5 then pyStrip clean else ft

/-- The body of the `try` block of `generate_alt_text` after a successful
model call (lines 313-420): choose `response` or `thinking`, strip think
blocks, try the thinking salvage, then the JSON strategies, then the
fallback record. -/
def processReply (jp : String → Option PJson) (response thinking : String) : AltRecord :=
  let text : String := if response = "" then thinking else response
  let c0 := pyStrip (stripThinkBlocks text.data)
  let clean := if c0 = [] then text.data else c0
  let salv : Option AltRecord :=
    if response = "" ∧ thinking ≠ "" then
      match salvageAlt thinking.data with
      | some fa =>
        if fa ≠ [] then
          some (salvageRecord (String.mk fa) (salvageBildtyp thinking.data) thinking)
        else none
      | none => none
    else none
  match salv with
  | some r => r
  | none =>
    match jsonPaths jp clean text with
    | some r => r
    | none =>
      let ft := fallbackText clean
      { bildtyp := "unbekannt"
        alt_text :=
          if ft ≠ [] then String.mk ft
          else "[Modell-Antwort konnte nicht verarbeitet werden: " ++
            String.mk (text.data.take 200) ++ "]"
        ist_dekorativ := false
        konfidenz := none
        raw_response := text }

/-! ### `generate_alt_text` exception flow (pdf_processor.py lines 289-427)

The model call and the file system are external; they enter the embedding
as outcomes.  `resize` is the result of `_resize_image_for_model`, which
the source runs BEFORE the `try` block: `Except.error` models the
exception raised on an unreadable image file and propagates.  `CallResult`
is the outcome of everything inside the `try` block that can raise
(httpx.post, raise_for_status, response.json()): `exn` models any such
exception, which the source converts into an error record. -/

/-- One outcome of the guarded part of the model call. -/
inductive CallResult where
  | exn (msg : String)
  | reply (response thinking : String)
deriving DecidableEq, Repr

/-- The `except Exception` record (lines 421-427). -/
def fehlerRecord (e : String) : AltRecord :=
  { bildtyp := "fehler"
    alt_text := "Fehler bei der Analyse: " ++ e
    ist_dekorativ := false
    konfidenz := none
    raw_response := e }

/-- `generate_alt_text`: resize first (outside the `try`), then the guarded
call and reply processing. -/
def generate_alt_text (jp : String → Option PJson) (resize : Except String String)
    (call : CallResult) : Except String AltRecord :=
  match resize with
  | .error e => .error e
  | .ok _ =>
    .ok (match call with
      | .exn e => fehlerRecord e
      | .reply r t => processReply jp r t)

/-! ### Tagged-PDF writer (pdf_processor.py lines 430-549, main.py lines 543-578)

The PyMuPDF document is abstracted to what the writer reads: per page the
list of image XObjects (`page.get_images(full=True)`, giving the object
xref and the resource name) and the content stream.  The alt-text map is
the Python dict `alt_texts` built by `export_pdf`. -/

/-- `_escape_pdf_string` (lines 430-432). -/
def escape_pdf_string (t : String) : String :=
  String.mk (t.data.flatMap (fun c =>
    if c = '\\' then ['\\', '\\']
    else if c = '(' then ['\\', '(']
    else if c = ')' then ['\\', ')']
    else [c]))

/-- One image XObject of a page: its PDF xref and its resource name. -/
structure PageImage where
  xref : Nat
  name : String
deriving DecidableEq, Repr

/-- One page: its image XObjects and its (cleaned) content stream. -/
structure PdfPage where
  images : List PageImage
  content : String
deriving DecidableEq, Repr

/-- The Python dict `xref -> alt text or None` as an association list. -/
abbrev AltMap : Type := List (Nat × Option String)

/-- Dict lookup: `some v` when the key is present (with value `v`). -/
def mapGet (m : AltMap) (x : Nat) : Option (Option String) :=
  (m.find? (fun p => p.1 = x)).map Prod.snd

/-- Dict assignment `m[x] = v`. -/
def mapSet (m : AltMap) (x : Nat) (v : Option String) : AltMap :=
  if (m.find? (fun p : Nat × Option String => p.1 = x)).isSome then
    m.map (fun p => if p.1 = x then (x, v) else p)
  else m ++ [(x, v)]

/-- The collection loop of `write_alt_texts_to_pdf` for one page (lines
445-454): keep each page image whose xref is in the map with a non-None
value, normalizing the literal text `dekorativ` to the empty alt-text. -/
def collectPage (m : AltMap) (p : PdfPage) : List (Nat × String × String) :=
  p.images.filterMap (fun img =>
    match mapGet m img.xref with
    | some (some alt) =>
      some (img.xref, img.name, if alt = "dekorativ" then "" else alt)
    | _ => none)

/-- The `/Alt` values set directly on image XObjects as a fallback (lines
457-461), per page: `(escaped)` or `()` when empty. -/
def xobjectAltSets (m : AltMap) (p : PdfPage) : List (Nat × String) :=
  (collectPage m p).map (fun e =>
    let escaped := escape_pdf_string e.2.2
    (e.1, if escaped = "" then "()" else "(" ++ escaped ++ ")"))

/-- The figure-building loop for one page (lines 480-491): the n-th kept
image gets MCID n (`mcid = len(page_figures[page_num])` at append time).
Entries are `(mcid, resource name, alt text)`. -/
def assignFigs (entries : List (Nat × String × String)) : List (Nat × String × String) :=
  (List.range entries.length).zip (entries.map (fun e => (e.2.1, e.2.2)))

/-- Decimal digits of a natural number, as Python `str(n)` / f-strings. -/
def natDecAux : Nat → Nat → List Char → List Char
  | 0, _, acc => acc
  | fuel + 1, n, acc =>
    if n < 10 then Char.ofNat (48 + n) :: acc
    else natDecAux fuel (n / 10) (Char.ofNat (48 + n % 10) :: acc)

/-- Decimal representation of a natural number. -/
def natDec (n : Nat) : List Char := natDecAux (n + 1) n []

/-- The marked-content opener emitted for MCID `n`:
`/Figure <</MCID n>> BDC`. -/
def bdcMarker (mcid : Nat) : List Char :=
  "/Figure <</MCID ".data ++ natDec mcid ++ ">> BDC".data

/-- The replacement the writer builds for a located image invocation
(line 533): marker, newline, the original text, newline, `EMC`. -/
def bdcWrap (mcid : Nat) (orig : List Char) : List Char :=
  bdcMarker mcid ++ '\n' :: (orig ++ '\n' :: "EMC".data)

/-- Length consumed by `/name\s+Do\s*Q` at the start of `l`, if it
matches. -/
def figTailLen (name l : List Char) : Option Nat :=
  match expectLit ('/' :: name) l with
  | some r =>
    match eatWs1 r with
    | some r2 =>
      match expectLit "Do".data r2 with
      | some r3 =>
        match (r3.dropWhile pyWs) with
        | 'Q' :: r4 => some (l.length - r4.length)
        | _ => none
      | none => none
    | none => none
  | none => none

/-- The lazy `[^Q]*?` scan: consume the fewest non-`Q` characters after
which the tail pattern matches. -/
def figLazy (name : List Char) : List Char → Option Nat
  | [] => none
  | c :: t =>
    match figTailLen name (c :: t) with
    | some m => some m
    | none => if c = 'Q' then none else (figLazy name t).map (· + 1)

/-- Match of the pattern `q\s[^Q]*?/name\s+Do\s*Q` at the start of `l`,
returning the matched substring. -/
def figMatchAt (name : List Char) (l : List Char) : Option (List Char) :=
  match l with
  | 'q' :: c :: t =>
    if pyWs c then (figLazy name t).map (fun m => l.take (2 + m)) else none
  | _ => none

/-- Python `s.replace(target, repl, 1)`: replace the first occurrence. -/
def replaceFirstL (target repl l : List Char) : List Char :=
  match findIdx target l with
  | none => l
  | some i => l.take i ++ repl ++ l.drop (i + target.length)

/-- One iteration of the content-marking loop (lines 527-534): locate the
image invocation of `name`; if found, wrap its first occurrence in a
`BDC`/`EMC` pair carrying the MCID, otherwise leave the stream
untouched. -/
def markOne (content : List Char) (fig : Nat × String) : List Char :=
  match reSearch (figMatchAt fig.2.data) content with
  | none => content
  | some orig => replaceFirstL orig (bdcWrap fig.1 orig) content

/-- The whole marking loop of one page. -/
def markPage (content : List Char) (figs : List (Nat × String)) : List Char :=
  figs.foldl markOne content

/-- The writer's effect on one page: the `(mcid, name)` figure list that
the parent tree references, and the rewritten content stream. -/
def writePage (m : AltMap) (p : PdfPage) : List (Nat × String) × List Char :=
  let figs := (assignFigs (collectPage m p)).map (fun e => (e.1, e.2.1))
  (figs, markPage p.content.data figs)

/-! ### The export alt-text map (main.py lines 553-562) -/

/-- One `images` DB row as read by `export_pdf`: NULL columns are
`none`. -/
structure ImageRow where
  xref : Nat
  alt_text : Option String
  alt_text_edited : Option String
deriving DecidableEq, Repr

/-- `img[alt_text_edited] if img[alt_text_edited] else img[alt_text]`
(line 560): Python truthiness, so both NULL and the empty string fall
back. -/
def rowChosen (r : ImageRow) : Option String :=
  match r.alt_text_edited with
  | some s => if s = "" then r.alt_text else some s
  | none => r.alt_text

/-- The `alt_texts` dict built by `export_pdf` (lines 558-562): include a
row when the chosen text is not None and the xref is truthy. -/
def buildAltTexts (rows : List ImageRow) : AltMap :=
  rows.foldl (fun m r =>
    match rowChosen r with
    | some v => if r.xref ≠ 0 then mapSet m r.xref (some v) else m
    | none => m) []

/-! ### Orchestrator state machine (main.py lines 324-501)

The project row, its image rows and the in-memory loop counter of an
active `_process_project` task form the state.  DB writes are modelled as
state updates; a crash kills the task but keeps the DB fields. -/

/-- Project status values. -/
inductive PStatus where
  | uploaded | extracting | extracted | processing | done | error
deriving DecidableEq, Repr

/-- Image row status values used by the generation loop. -/
inductive ImgStatus where
  | pending | processing | done
deriving DecidableEq, Repr

/-- Orchestrator state of one project: DB columns `status`,
`total_images`, `processed_images`, the statuses of its image rows, and
`runLocal`, the local variable `processed` of a live `_process_project`
task (`none` when no task is running). -/
structure ProjState where
  status : PStatus
  total : Nat
  processed : Nat
  rows : List ImgStatus
  runLocal : Option Nat
deriving DecidableEq, Repr

/-- Number of rows the generation loop still selects. -/
def countPending (rows : List ImgStatus) : Nat :=
  rows.countP (fun r => r = ImgStatus.pending)

/-- Process the first pending row (the loop handles rows in `(page,
index)` order; only relative order matters here). -/
def markFirstPending : List ImgStatus → List ImgStatus
  | [] => []
  | r :: t => if r = ImgStatus.pending then ImgStatus.done :: t else r :: markFirstPending t

/-- Steps of the orchestrator as implemented:
upload success (extraction succeeded, all rows pending, counters set),
upload failure (status `error`, nothing stored), the generate endpoint
(guarded by `status == processing`, line 460, spawning a task with local
counter 0), one loop iteration of `_process_project` (lines 480-497: row
done, `processed_images` OVERWRITTEN with the local counter), loop exit
(line 499: status `done`), and a process crash (task lost, DB kept). -/
inductive Reachable : ProjState → Prop where
  | uploadOk (n : Nat) :
      Reachable ⟨.extracted, n, 0, List.replicate n .pending, none⟩
  | uploadErr :
      Reachable ⟨.error, 0, 0, [], none⟩
  | startGen (s : ProjState) : Reachable s → s.status ≠ .processing → s.runLocal = none →
      Reachable ⟨.processing, s.total, s.processed, s.rows, some 0⟩
  | procStep (s : ProjState) (k : Nat) : Reachable s → s.runLocal = some k →
      0 < countPending s.rows →
      Reachable ⟨s.status, s.total, k + 1, markFirstPending s.rows, some (k + 1)⟩
  | procFinish (s : ProjState) (k : Nat) : Reachable s → s.runLocal = some k →
      countPending s.rows = 0 →
      Reachable ⟨.done, s.total, s.processed, s.rows, none⟩
  | crash (s : ProjState) (k : Nat) : Reachable s → s.runLocal = some k →
      Reachable ⟨s.status, s.total, s.processed, s.rows, none⟩

/-- The body of `_process_project` run to completion from local counter
`k` (lines 472-501): process every pending row, then mark the project
done. -/
def procAllAux : Nat → ProjState → Nat → ProjState
  | 0, s, _ => s
  | fuel + 1, s, k =>
    if 0 < countPending s.rows then
      procAllAux fuel
        { s with rows := markFirstPending s.rows, processed := k + 1,
                 runLocal := some (k + 1) } (k + 1)
    else { s with status := .done, runLocal := none }

/-- A full `_process_project` run on state `s` (local counter starts at
0, line 479). -/
def processProject (s : ProjState) : ProjState :=
  procAllAux (s.rows.length + 1) s 0

/-! ### Vector cluster detector `_cluster_drawings` (pdf_processor.py lines 55-119)

Rectangles use rational coordinates (`fitz.Rect` holds floats; every
operation used here - min, max, addition of constants, comparison - is
exact on rationals). -/

/-- A `fitz.Rect`. -/
structure VRect where
  x0 : ℚ
  y0 : ℚ
  x1 : ℚ
  y1 : ℚ
deriving DecidableEq, Repr

/-- `Rect.width`: `max(x1 - x0, 0)`. -/
def VRect.width (r : VRect) : ℚ := max (r.x1 - r.x0) 0

/-- `Rect.height`: `max(y1 - y0, 0)`. -/
def VRect.height (r : VRect) : ℚ := max (r.y1 - r.y0) 0

/-- `Rect.is_empty`: no positive area. -/
def VRect.isEmptyR (r : VRect) : Bool := r.x1 ≤ r.x0 || r.y1 ≤ r.y0

/-- The PyMuPDF infinite rectangle. -/
def infiniteRect : VRect := ⟨-2147483648, -2147483648, 2147483647, 2147483647⟩

/-- `r & s`: coordinatewise intersection. -/
def interR (a b : VRect) : VRect :=
  ⟨max a.x0 b.x0, max a.y0 b.y0, min a.x1 b.x1, min a.y1 b.y1⟩

/-- `r | s`: bounding box of the union. -/
def unionR (a b : VRect) : VRect :=
  ⟨min a.x0 b.x0, min a.y0 b.y0, max a.x1 b.x1, max a.y1 b.y1⟩

/-- `Rect.intersects`: false on empty or infinite operands, else
non-emptiness of the intersection. -/
def intersectsB (a b : VRect) : Bool :=
  if a.isEmptyR || a = infiniteRect || b.isEmptyR || b = infiniteRect then false
  else !(interR a b).isEmptyR

/-- Outset by `p` on every side. -/
def padR (r : VRect) (p : ℚ) : VRect := ⟨r.x0 - p, r.y0 - p, r.x1 + p, r.y1 + p⟩

/-- A point lies in a rectangle (closed). -/
def pointIn (q : ℚ × ℚ) (r : VRect) : Prop :=
  r.x0 ≤ q.1 ∧ q.1 ≤ r.x1 ∧ r.y0 ≤ q.2 ∧ q.2 ≤ r.y1

/-- One vector drawing as read from `page.get_drawings()`: its rectangle
and `len(d.get("items", []))`. -/
structure DrawItem where
  rect : VRect
  itemCount : Nat
deriving DecidableEq, Repr

/-- The pre-filter (lines 61-71): drop empty or infinite rectangles and
page-wide slivers (`0.4` is `2/5`). -/
def prefilterDrawings (pageRect : VRect) (ds : List DrawItem) : List DrawItem :=
  ds.filter (fun d =>
    !d.rect.isEmptyR && !(d.rect = infiniteRect) &&
    !(d.rect.height < 5 && d.rect.width > pageRect.width * (2/5)) &&
    !(d.rect.width < 5 && d.rect.height > pageRect.height * (2/5)))

/-- `item_count` of the drawing at index `i` of the surviving list. -/
def itemAt (data : List DrawItem) (i : Nat) : Nat :=
  ((data.getD i ⟨⟨0, 0, 0, 0⟩, 0⟩).itemCount)

/-- One `for j, r2 in enumerate(rects)` pass of the growth loop (lines
92-98): `expanded` stays fixed while the cluster and its bounding box
grow. -/
def growPassAux (used : Finset Nat) (expanded : VRect) :
    List (Nat × VRect) → Finset Nat × VRect × Bool → Finset Nat × VRect × Bool
  | [], st => st
  | (j, r2) :: rest, (cl, cr, ch) =>
    if j ∉ cl ∧ j ∉ used ∧ intersectsB expanded r2 then
      growPassAux used expanded rest (insert j cl, unionR cr r2, true)
    else growPassAux used expanded rest (cl, cr, ch)

/-- The `while changed` loop (lines 87-98): expand the current bounding
box by `gap = 50`, absorb intersecting unassigned items, repeat until a
pass absorbs nothing. -/
def growLoop (idx : List (Nat × VRect)) (used : Finset Nat) :
    Nat → Finset Nat × VRect → Finset Nat × VRect
  | 0, st => st
  | fuel + 1, (cl, cr) =>
    let expanded := padR cr 50
    match growPassAux used expanded idx (cl, cr, false) with
    | (cl', cr', true) => growLoop idx used fuel (cl', cr')
    | (cl', cr', false) => (cl', cr')

/-- The outer seed loop (lines 82-117): seed a cluster at each unused
index, grow it, mark it used, then keep it only if it has at least two
items, at least five path segments in total, and a bounding box at least
50 wide and 50 tall; kept clusters are padded by 60 and clipped to the
page. -/
def outerAux (data : List DrawItem) (pageRect : VRect) (idx : List (Nat × VRect)) :
    List (Nat × VRect) → Finset Nat → List VRect
  | [], _ => []
  | (i, r1) :: rest, used =>
    if i ∈ used then outerAux data pageRect idx rest used
    else
      let st := growLoop idx used (data.length + 1) ({i}, r1)
      let used' := used ∪ st.1
      if 2 ≤ st.1.card then
        if 5 ≤ ∑ j ∈ st.1, itemAt data j then
          if 50 ≤ st.2.width ∧ 50 ≤ st.2.height then
            interR (padR st.2 60) pageRect :: outerAux data pageRect idx rest used'
          else outerAux data pageRect idx rest used'
        else outerAux data pageRect idx rest used'
      else outerAux data pageRect idx rest used'

/-- `_cluster_drawings(drawings, page_rect)` with the source defaults
`gap = 50`, `min_size = 50`. -/
def cluster_drawings (ds : List DrawItem) (pageRect : VRect) : List VRect :=
  let data := prefilterDrawings pageRect ds
  let idx := (data.map DrawItem.rect).enum
  outerAux data pageRect idx idx ∅

/-! ### Per-page image index assignment in `extract_images_from_pdf`
(pdf_processor.py lines 128-237)

What matters for the indexing claims is, per raster entry of
`page.get_images(full=True)`, whether the guarded extraction succeeded
and the pixel dimensions, and per accepted vector cluster, whether it
overlaps a raster area and whether rendering succeeded. -/

/-- Outcome of the guarded body for one raster entry: `rasterErr` is any
exception or falsy `extract_image` result, `rasterImg w h` a decoded
image. -/
inductive RasterOutcome where
  | rasterErr
  | rasterImg (w h : Nat)
deriving DecidableEq, Repr

/-- Outcome for one cluster produced by `_cluster_drawings`: whether the
overlap rule discards it (lines 193-203) and whether rendering succeeded
(lines 207-237). -/
structure VecOutcome where
  overlapsRaster : Bool
  renderOk : Bool
deriving DecidableEq, Repr

/-- The raster loop (lines 138-180): `img_idx` is incremented for EVERY
entry, before the try block; a descriptor is emitted only for decodable
images at least 20 pixels wide and tall.  Returns the emitted
`image_index` values. -/
def rasterPass : List RasterOutcome → Nat → List Nat
  | [], _ => []
  | r :: t, idx =>
    let i := idx + 1
    match r with
    | .rasterErr => rasterPass t i
    | .rasterImg w h => if w < 20 ∨ h < 20 then rasterPass t i else i :: rasterPass t i

/-- The vector loop (lines 191-237): clusters discarded by the overlap
rule do not touch the counter; surviving clusters increment it before the
try block, and a descriptor is emitted only when rendering succeeds. -/
def vecPass : List VecOutcome → Nat → List Nat
  | [], _ => []
  | v :: t, idx =>
    if v.overlapsRaster then vecPass t idx
    else
      let i := idx + 1
      if v.renderOk then i :: vecPass t i else vecPass t i

/-- All `image_index` values emitted for one page: the raster loop starts
at 0; the vector loop continues from the final raster counter, which is
the number of raster entries. -/
def pageIndices (rs : List RasterOutcome) (vs : List VecOutcome) : List Nat :=
  rasterPass rs 0 ++ vecPass vs rs.length

/-! ## Theorems -/

/-- Claim C1: the specification demands that every combined alt-text have
length at most 400, cut at a late sentence terminator when one exists and
hard-cut at 400 otherwise.  The code lacks the hard-cut branch: this
theorem evaluates `_combine_alt_text` at a 401-character alt-text without
any sentence terminator and shows the input is returned whole, 401
characters long, exceeding `MAX_ALT_TEXT_LENGTH`. -/
theorem C1_no_hard_cut_at_400 :
    combine_alt_text (String.mk (List.replicate 401 'a')) "" =
      String.mk (List.replicate 401 'a') ∧
    MAX_ALT_TEXT_LENGTH <
      (combine_alt_text (String.mk (List.replicate 401 'a')) "").length := by
  constructor
  · decide
  · decide

/-- Claim C4 counterexample: `_resize_image_for_model` runs BEFORE the
`try` block of `generate_alt_text`, so an unreadable image file raises an
exception that propagates to the caller instead of yielding a record with
`bildtyp = "fehler"`. -/
theorem C4_resize_failure_raises :
    generate_alt_text (fun _ => none)
      (Except.error "cannot identify image file") (CallResult.reply "" "") =
      Except.error "cannot identify image file" := rfl

/-- Claim C4 amended: once the image file has been read and re-encoded
successfully, every failure of the guarded model call (network error,
timeout, non-2xx status, unparsable reply body) yields a normal return
value, a record with `bildtyp = "fehler"` and a human-readable
`alt_text`, and the reply processing itself never raises; a failure
while opening or resizing the image file, however, propagates as an
exception. -/
theorem C4_guarded_failures_return_records :
    (∀ (jp : String → Option PJson) (b64 : String) (call : CallResult),
      ∃ r, generate_alt_text jp (Except.ok b64) call = Except.ok r) ∧
    (∀ (jp : String → Option PJson) (b64 e : String),
      generate_alt_text jp (Except.ok b64) (CallResult.exn e) =
        Except.ok (fehlerRecord e) ∧
      (fehlerRecord e).bildtyp = "fehler" ∧
      (fehlerRecord e).alt_text = "Fehler bei der Analyse: " ++ e) ∧
    (∀ (jp : String → Option PJson) (msg : String) (call : CallResult),
      generate_alt_text jp (Except.error msg) call = Except.error msg) := by
  refine ⟨fun jp b64 call => ?_, fun jp b64 e => ⟨rfl, rfl, rfl⟩,
    fun jp msg call => rfl⟩
  cases call <;> exact ⟨_, rfl⟩

/-- Claim C2 counterexample: a row whose `alt_text_edited` is the empty
string (non-null) exports its original `alt_text`, not the empty edit:
Python truthiness, not a null test, selects the exported text. -/
theorem C2_empty_edit_falls_back :
    buildAltTexts [⟨5, some "foo", some ""⟩] = [(5, some "foo")] ∧
    buildAltTexts [⟨5, some "foo", some ""⟩] ≠ [(5, some "")] := by
  constructor
  · rfl
  · decide

/-- Claim C2 amended: the text placed into the writer's map is
`alt_text_edited` whenever it is non-null AND non-empty; a null or empty
`alt_text_edited` falls back to `alt_text`; and the writer maps the
literal string `dekorativ` to the empty alt-text for every collected
image. -/
theorem C2_export_text_selection :
    (∀ (r : ImageRow) (s : String), r.alt_text_edited = some s → s ≠ "" →
      rowChosen r = some s) ∧
    (∀ r : ImageRow, r.alt_text_edited = none ∨ r.alt_text_edited = some "" →
      rowChosen r = r.alt_text) ∧
    (∀ (m : AltMap) (p : PdfPage) (e : Nat × String × String),
      e ∈ collectPage m p → mapGet m e.1 = some (some "dekorativ") →
      e.2.2 = "") := by
  refine ⟨fun r s hs hne => ?_, fun r h => ?_, fun m p e he hget => ?_⟩
  · simp [rowChosen, hs, hne]
  · rcases h with h | h <;> simp [rowChosen, h]
  · rcases List.mem_filterMap.mp he with ⟨img, _, himg⟩
    rcases hg : mapGet m img.xref with _ | alt
    · rw [hg] at himg; exact absurd himg (by simp)
    · rcases alt with _ | a
      · rw [hg] at himg; exact absurd himg (by simp)
      · rw [hg] at himg
        have he1 : e.1 = img.xref := by
          cases himg; rfl
        rw [he1, hg] at hget
        have ha : a = "dekorativ" := by
          have := Option.some.inj hget
          exact Option.some.inj this
        cases himg
        simp [ha]

/-- Claim C2 witness: the amended selection rule at concrete rows and a
concrete page. -/
theorem C2_export_text_selection_witness :
    rowChosen ⟨1, some "a", some "b"⟩ = some "b" ∧
    rowChosen ⟨1, some "a", some ""⟩ = some "a" ∧
    (∀ (e : Nat × String × String),
      e ∈ collectPage [(3, some "dekorativ")] ⟨[⟨3, "Im1"⟩], ""⟩ →
      mapGet [(3, some "dekorativ")] e.1 = some (some "dekorativ") →
      e.2.2 = "") :=
  ⟨C2_export_text_selection.1 ⟨1, some "a", some "b"⟩ "b" rfl (by decide),
   C2_export_text_selection.2.1 ⟨1, some "a", some ""⟩ (Or.inr rfl),
   C2_export_text_selection.2.2 [(3, some "dekorativ")] ⟨[⟨3, "Im1"⟩], ""⟩⟩

/-- Claim C8 counterexample: the writer has no explicit `xref ≥ 900000`
test; it drops synthetic xrefs only because no image XObject carries
them.  A document that genuinely contains an image object numbered
900001 gets a figure and an `/Alt` for the map entry 900001, so the
claimed filtering does not hold for every input PDF and every map. -/
theorem C8_large_real_xref_is_attached :
    collectPage [(900001, some "x")] ⟨[⟨900001, "Im0"⟩], ""⟩ =
      [(900001, "Im0", "x")] ∧
    (900001, "(x)") ∈ xobjectAltSets [(900001, some "x")] ⟨[⟨900001, "Im0"⟩], ""⟩ ∧
    (writePage [(900001, some "x")] ⟨[⟨900001, "Im0"⟩], ""⟩).1 = [(0, "Im0")] := by
  refine ⟨rfl, ?_, rfl⟩
  simp [xobjectAltSets, collectPage, mapGet, escape_pdf_string]

/-- Claim C8 amended: an alt-text map entry is attached only when its key
equals the xref of some image XObject of a page.  Hence for every
document whose image objects all have xref below 900000 - which holds for
every PDF this pipeline produces, the synthetic counter never naming a
real object - entries with key at least 900000 yield no collected image
and no XObject `/Alt`. -/
theorem C8_synthetic_xrefs_dropped :
    ∀ (m : AltMap) (p : PdfPage),
      (∀ img ∈ p.images, img.xref < 900000) →
      ∀ x : Nat, 900000 ≤ x →
        (∀ e ∈ collectPage m p, e.1 ≠ x) ∧
        (∀ e ∈ xobjectAltSets m p, e.1 ≠ x) := by
  intro m p himg x hx
  have hcol : ∀ e ∈ collectPage m p, e.1 ≠ x := by
    intro e he
    rcases List.mem_filterMap.mp he with ⟨img, hmem, hmk⟩
    rcases hg : mapGet m img.xref with _ | alt
    · rw [hg] at hmk; exact absurd hmk (by simp)
    · rcases alt with _ | a
      · rw [hg] at hmk; exact absurd hmk (by simp)
      · rw [hg] at hmk
        have he1 : e.1 = img.xref := by cases hmk; rfl
        rw [he1]
        have := himg img hmem
        omega
  refine ⟨hcol, fun e he => ?_⟩
  rcases List.mem_map.mp he with ⟨e0, he0, hmk⟩
  have : e.1 = e0.1 := by cases hmk; rfl
  rw [this]
  exact hcol e0 he0

/-- Claim C8 witness: the amended filtering at a concrete document and
map. -/
theorem C8_synthetic_xrefs_dropped_witness :
    (∀ e ∈ collectPage [(900001, some "x")] ⟨[⟨5, "Im0"⟩], ""⟩, e.1 ≠ 900001) ∧
    (∀ e ∈ xobjectAltSets [(900001, some "x")] ⟨[⟨5, "Im0"⟩], ""⟩, e.1 ≠ 900001) :=
  C8_synthetic_xrefs_dropped [(900001, some "x")] ⟨[⟨5, "Im0"⟩], ""⟩
    (by decide) 900001 (by decide)

/-- Every index the raster loop emits lies strictly between the counter at
loop entry and the counter at loop exit. -/
theorem rasterPass_bounds (rs : List RasterOutcome) (idx : Nat) :
    ∀ i ∈ rasterPass rs idx, idx < i ∧ i ≤ idx + rs.length := by
  induction rs generalizing idx with
  | nil => intro i hi; cases hi
  | cons r t ih =>
    intro i hi
    cases r with
    | rasterErr =>
      have := ih (idx + 1) i hi
      simp only [List.length_cons]
      omega
    | rasterImg w h =>
      simp only [rasterPass] at hi
      by_cases hwh : w < 20 ∨ h < 20
      · rw [if_pos hwh] at hi
        have := ih (idx + 1) i hi
        simp only [List.length_cons]; omega
      · rw [if_neg hwh] at hi
        rcases List.mem_cons.mp hi with h1 | h1
        · subst h1; simp only [List.length_cons]; omega
        · have := ih (idx + 1) i h1
          simp only [List.length_cons]; omega

/-- The raster loop emits strictly increasing indices. -/
theorem rasterPass_pairwise (rs : List RasterOutcome) (idx : Nat) :
    (rasterPass rs idx).Pairwise (· < ·) := by
  induction rs generalizing idx with
  | nil => exact List.Pairwise.nil
  | cons r t ih =>
    cases r with
    | rasterErr => exact ih (idx + 1)
    | rasterImg w h =>
      simp only [rasterPass]
      by_cases hwh : w < 20 ∨ h < 20
      · rw [if_pos hwh]; exact ih (idx + 1)
      · rw [if_neg hwh]
        exact List.Pairwise.cons
          (fun j hj => (rasterPass_bounds t (idx + 1) j hj).1) (ih (idx + 1))

/-- Every index the vector loop emits lies strictly above the counter at
loop entry. -/
theorem vecPass_bounds (vs : List VecOutcome) (idx : Nat) :
    ∀ i ∈ vecPass vs idx, idx < i := by
  induction vs generalizing idx with
  | nil => intro i hi; cases hi
  | cons v t ih =>
    intro i hi
    simp only [vecPass] at hi
    by_cases hov : v.overlapsRaster = true
    · rw [if_pos hov] at hi; exact ih idx i hi
    · rw [if_neg hov] at hi
      by_cases hr : v.renderOk = true
      · rw [if_pos hr] at hi
        rcases List.mem_cons.mp hi with h1 | h1
        · omega
        · have := ih (idx + 1) i h1; omega
      · rw [if_neg hr] at hi
        have := ih (idx + 1) i hi; omega

/-- The vector loop emits strictly increasing indices. -/
theorem vecPass_pairwise (vs : List VecOutcome) (idx : Nat) :
    (vecPass vs idx).Pairwise (· < ·) := by
  induction vs generalizing idx with
  | nil => exact List.Pairwise.nil
  | cons v t ih =>
    simp only [vecPass]
    by_cases hov : v.overlapsRaster = true
    · rw [if_pos hov]; exact ih idx
    · rw [if_neg hov]
      by_cases hr : v.renderOk = true
      · rw [if_pos hr]
        exact List.Pairwise.cons (fun j hj => vecPass_bounds t (idx + 1) j hj) (ih (idx + 1))
      · rw [if_neg hr]; exact ih (idx + 1)

/-- Claim C10: raster and vector descriptors of one page share a single
index counter.  The emitted index sequence is strictly increasing (hence
no two descriptors of a page share an `image_index`, and every vector
index exceeds every raster index, since the vector loop resumes from the
final raster counter), and it may contain gaps: a failing first raster
entry or an undersized image consumes an index, so the sequence need not
start at 1 or be contiguous. -/
theorem C10_shared_page_index_counter :
    (∀ (rs : List RasterOutcome) (vs : List VecOutcome),
      (pageIndices rs vs).Pairwise (· < ·)) ∧
    (∀ (rs : List RasterOutcome) (vs : List VecOutcome),
      (pageIndices rs vs).Nodup) ∧
    pageIndices [RasterOutcome.rasterErr, RasterOutcome.rasterImg 30 40]
      [⟨false, true⟩] = [2, 3] ∧
    pageIndices [RasterOutcome.rasterImg 10 10, RasterOutcome.rasterImg 30 40]
      [] = [2] := by
  have hpair : ∀ (rs : List RasterOutcome) (vs : List VecOutcome),
      (pageIndices rs vs).Pairwise (· < ·) := by
    intro rs vs
    rw [pageIndices, List.pairwise_append]
    refine ⟨rasterPass_pairwise rs 0, vecPass_pairwise vs rs.length, ?_⟩
    intro i hi j hj
    have h1 := (rasterPass_bounds rs 0 i hi).2
    have h2 := vecPass_bounds vs rs.length j hj
    omega
  refine ⟨hpair, fun rs vs => ?_, by decide, by decide⟩
  exact (hpair rs vs).imp Nat.ne_of_lt

/-- A model reply consisting of one JSON object with `bildtyp`
`dekorativ` but `ist_dekorativ` false. -/
def c6Resp : String :=
  "\x7b\"bildtyp\": \"dekorativ\", \"alt_text\": \"Ornament links oben\", \"ist_dekorativ\": false\x7d"

/-- The value `json.loads` returns on `c6Resp` (the only string this
oracle is applied to). -/
def c6Parsed : PJson :=
  { bildtyp := some "dekorativ", alt_text := some "Ornament links oben",
    ist_dekorativ := some false }

/-- `json.loads` restricted to the reply of the C6 scenario. -/
def c6Parse : String → Option PJson :=
  fun s => if s = c6Resp then some c6Parsed else none

/-- Claim C6 counterexample: on the fenced-JSON parse path the claimed
equivalence fails.  For a reply whose parsed JSON has `bildtyp =
"dekorativ"` and `ist_dekorativ = false`, the parser returns
`ist_dekorativ = false` although the claimed right-hand side (parsed flag
OR alt-text contains `dekorativ` OR `bildtyp = "dekorativ"`) is true:
the disjunction is applied only on the thinking-salvage path. -/
theorem C6_json_path_ignores_bildtyp :
    ¬ ((processReply c6Parse c6Resp "").ist_dekorativ = true ↔
      (c6Parsed.ist_dekorativ.getD false = true ∨
       occursB "dekorativ".data
         (lowerL (processReply c6Parse c6Resp "").alt_text.data) = true ∨
       (processReply c6Parse c6Resp "").bildtyp = "dekorativ")) := by
  decide

/-- Claim C6 amended: on both JSON-parse paths `ist_dekorativ` is exactly
the parsed JSON flag (defaulting to false), with no contribution from the
alt-text or the bildtyp; the three-way disjunction (minus the JSON flag,
which does not exist there) holds only on the thinking-salvage path; the
fallback and error records are never decorative. -/
theorem C6_ist_dekorativ_per_path :
    (∀ (p : PJson) (text : String),
      ((jsonRecord p text).ist_dekorativ = true ↔ p.ist_dekorativ = some true)) ∧
    (∀ fa bt th : String,
      ((salvageRecord fa bt th).ist_dekorativ = true ↔
        (occursB "dekorativ".data (lowerL fa.data) = true ∨ bt = "dekorativ"))) ∧
    (∀ e : String, (fehlerRecord e).ist_dekorativ = false) := by
  refine ⟨fun p text => ?_, fun fa bt th => ?_, fun e => rfl⟩
  · simp only [jsonRecord]
    cases h : p.ist_dekorativ with
    | none => simp
    | some b => cases b <;> simp
  · simp only [salvageRecord, Bool.or_eq_true, beq_iff_eq]

/-- The thinking text of specification scenario 4. -/
def c7Thinking : String :=
  "Okay, the alt_text should be \"Balkendiagramm – Umsatz 2020 bis 2024 gestiegen von 1 auf 3 Mio.\" for this chart."

/-- Claim C7 counterexample: the capture is NOT returned unchanged.  The
source strips surrounding whitespace, double quotes and periods
(`.strip().strip(quote).strip(period)`), so for the scenario thinking
text the returned alt-text is the quoted sentence WITHOUT its trailing
period, not the exact quoted sentence. -/
theorem C7_capture_not_unchanged :
    (processReply (fun _ => none) "" c7Thinking).alt_text ≠
      "Balkendiagramm – Umsatz 2020 bis 2024 gestiegen von 1 auf 3 Mio." := by
  decide

/-- Claim C7 amended: the salvage loop tries the patterns in their given
order and returns the first capture whose whitespace-stripped length
exceeds 10, after additionally stripping surrounding double quotes and
periods; a candidate is rejected exactly when the stripped capture
contains a meta-phrase.  For the scenario thinking text the third
pattern wins and the returned alt-text is the quoted sentence without
its trailing period, with `bildtyp = "diagramm"` inferred; and every
salvaged alt-text is meta-phrase-free. -/
theorem C7_salvage_behaviour :
    (processReply (fun _ => none) "" c7Thinking).alt_text =
      "Balkendiagramm – Umsatz 2020 bis 2024 gestiegen von 1 auf 3 Mio" ∧
    (processReply (fun _ => none) "" c7Thinking).bildtyp = "diagramm" ∧
    salvageAlt c7Thinking.data =
      some "Balkendiagramm – Umsatz 2020 bis 2024 gestiegen von 1 auf 3 Mio".data ∧
    (∀ (th fa : List Char), salvageAlt th = some fa →
      ∀ m ∈ metaPhrases, occursB m (lowerL fa) = false) := by
  refine ⟨by decide, by decide, by decide, fun th fa h m hm => ?_⟩
  rw [salvageAlt] at h
  generalize hps : [p1MatchAt, p2MatchAt, p3MatchAt, p4MatchAt, p5MatchAt,
    p6MatchAt, p7MatchAt] = ps at h
  clear hps
  induction ps with
  | nil => cases h
  | cons p ps ih =>
    rw [salvageGo] at h
    rcases hs : reSearch p th with _ | cap
    · rw [hs] at h; exact ih h
    · rw [hs] at h
      dsimp only at h
      by_cases hlen : 10 < (pyStrip cap).length
      · rw [if_pos hlen] at h
        by_cases hmeta : metaPhrases.any (fun m => occursB m (lowerL (stripCand cap))) = true
        · rw [if_pos hmeta] at h; exact ih h
        · rw [if_neg hmeta] at h
          have hfa : fa = stripCand cap := (Option.some.inj h).symm
          subst hfa
          have := List.any_eq_false.mp (Bool.not_eq_true _ ▸ hmeta)
          simpa using this m hm
      · rw [if_neg hlen] at h; exact ih h

/-- Claim C7 witness: the meta-phrase guarantee applied to the concrete
salvage of the scenario thinking text. -/
theorem C7_salvage_behaviour_witness :
    ∀ m ∈ metaPhrases,
      occursB m (lowerL
        "Balkendiagramm – Umsatz 2020 bis 2024 gestiegen von 1 auf 3 Mio".data) =
        false :=
  C7_salvage_behaviour.2.2.2 c7Thinking.data
    "Balkendiagramm – Umsatz 2020 bis 2024 gestiegen von 1 auf 3 Mio".data
    (by decide)

/-- Marking a row done keeps the number of rows. -/
theorem markFirstPending_length (rows : List ImgStatus) :
    (markFirstPending rows).length = rows.length := by
  induction rows with
  | nil => rfl
  | cons r t ih =>
    by_cases h : r = ImgStatus.pending
    · simp [markFirstPending, h]
    · simp [markFirstPending, h, ih]

/-- Marking a row done decrements the pending count. -/
theorem countPending_markFirstPending (rows : List ImgStatus)
    (h : 0 < countPending rows) :
    countPending (markFirstPending rows) = countPending rows - 1 := by
  induction rows with
  | nil => simp [countPending] at h
  | cons r t ih =>
    by_cases hr : r = ImgStatus.pending
    · subst hr
      simp [markFirstPending, countPending, List.countP_cons]
    · have hc : countPending (r :: t) = countPending t := by
        simp [countPending, List.countP_cons, hr]
      rw [hc] at h
      simp only [markFirstPending, if_neg hr]
      have : countPending (r :: markFirstPending t) = countPending (markFirstPending t) := by
        simp [countPending, List.countP_cons, hr]
      rw [this, ih h, hc]

/-- The pending count never exceeds the number of rows. -/
theorem countPending_le_length (rows : List ImgStatus) :
    countPending rows ≤ rows.length :=
  List.countP_le_length _

/-- Invariant carried by every reachable orchestrator state. -/
def ProjInv (s : ProjState) : Prop :=
  s.processed ≤ s.total ∧ s.rows.length = s.total ∧
  ∀ k, s.runLocal = some k → k + countPending s.rows ≤ s.total

/-- Every reachable state satisfies the invariant. -/
theorem reachable_inv : ∀ s, Reachable s → ProjInv s := by
  intro s h
  induction h with
  | uploadOk n =>
    refine ⟨Nat.zero_le n, List.length_replicate n _, fun k hk => ?_⟩
    cases hk
  | uploadErr => exact ⟨le_refl 0, rfl, fun k hk => by cases hk⟩
  | startGen s hs hst hrl ih =>
    refine ⟨ih.1, ih.2.1, fun k hk => ?_⟩
    have hk0 : k = 0 := by
      have := Option.some.inj hk
      omega
    subst hk0
    calc 0 + countPending s.rows ≤ s.rows.length := by
          simpa using countPending_le_length s.rows
      _ = s.total := ih.2.1
  | procStep s k hs hrl hp ih =>
    have hk := ih.2.2 k hrl
    refine ⟨?_, ?_, fun k2 hk2 => ?_⟩
    · show k + 1 ≤ s.total
      omega
    · show (markFirstPending s.rows).length = s.total
      rw [markFirstPending_length]
      exact ih.2.1
    · have hk2e : k2 = k + 1 := (Option.some.inj hk2).symm
      subst hk2e
      show k + 1 + countPending (markFirstPending s.rows) ≤ s.total
      rw [countPending_markFirstPending s.rows hp]
      omega
  | procFinish s k hs hrl hc ih =>
    exact ⟨ih.1, ih.2.1, fun k2 hk2 => by cases hk2⟩
  | crash s k hs hrl ih =>
    exact ⟨ih.1, ih.2.1, fun k2 hk2 => by cases hk2⟩

/-- Characterization of a completed `_process_project` run: status done,
total untouched, and `processed_images` overwritten with the number of
rows that were pending at run entry (left untouched when none were). -/
theorem procAllAux_done :
    ∀ (fuel : Nat) (s : ProjState) (k : Nat), countPending s.rows < fuel →
      (procAllAux fuel s k).status = PStatus.done ∧
      (procAllAux fuel s k).total = s.total ∧
      (procAllAux fuel s k).processed =
        (if countPending s.rows = 0 then s.processed else k + countPending s.rows) := by
  intro fuel
  induction fuel with
  | zero => intro s k h; omega
  | succ fuel ih =>
    intro s k h
    by_cases hc : 0 < countPending s.rows
    · have hred : procAllAux (fuel + 1) s k =
          procAllAux fuel ⟨s.status, s.total, k + 1, markFirstPending s.rows, some (k + 1)⟩ (k + 1) := by
        simp [procAllAux, hc]
      rw [hred]
      have hlt : countPending (⟨s.status, s.total, k + 1, markFirstPending s.rows, some (k + 1)⟩ : ProjState).rows < fuel := by
        show countPending (markFirstPending s.rows) < fuel
        rw [countPending_markFirstPending s.rows hc]; omega
      obtain ⟨h1, h2, h3⟩ := ih ⟨s.status, s.total, k + 1, markFirstPending s.rows, some (k + 1)⟩ (k + 1) hlt
      refine ⟨h1, h2, ?_⟩
      rw [h3]
      simp only [countPending_markFirstPending s.rows hc]
      have : ¬ countPending s.rows = 0 := by omega
      rw [if_neg this]
      by_cases h1c : countPending s.rows = 1
      · rw [h1c]; simp
      · have : ¬ countPending s.rows - 1 = 0 := by omega
        rw [if_neg this]
        omega
    · have hc0 : countPending s.rows = 0 := by omega
      have hred : procAllAux (fuel + 1) s k =
          { s with status := .done, runLocal := none } := by
        simp [procAllAux, hc0]
      rw [hred, if_pos hc0]
      exact ⟨rfl, rfl, rfl⟩

/-- Claim C5 amended: `processed_images ≤ total_images` holds in every
reachable state, and a completed generation run marks the project done
with `processed_images` equal to the number of rows that were pending
when the run started (the source overwrites the column with a run-local
counter, main.py lines 479-496).  Hence `done` implies `processed =
total` exactly for runs that started with every row pending - the only
runs the API can start - while a run over partially done rows would end
done with `processed < total`. -/
theorem C5_processed_counter :
    (∀ s, Reachable s → s.processed ≤ s.total) ∧
    (∀ s : ProjState,
      (processProject s).status = PStatus.done ∧
      (processProject s).total = s.total ∧
      (processProject s).processed =
        (if countPending s.rows = 0 then s.processed else countPending s.rows)) ∧
    (∀ n : Nat,
      (processProject ⟨.processing, n, 0, List.replicate n .pending, some 0⟩).processed
        = n) := by
  have h2 : ∀ s : ProjState,
      (processProject s).status = PStatus.done ∧
      (processProject s).total = s.total ∧
      (processProject s).processed =
        (if countPending s.rows = 0 then s.processed else countPending s.rows) := by
    intro s
    have hf : countPending s.rows < s.rows.length + 1 :=
      Nat.lt_succ_of_le (countPending_le_length s.rows)
    simpa using procAllAux_done (s.rows.length + 1) s 0 hf
  refine ⟨fun s hs => (reachable_inv s hs).1, h2, fun n => ?_⟩
  have hrep : countPending (List.replicate n ImgStatus.pending) = n := by
    induction n with
    | zero => rfl
    | succ n ih => simp [countPending, List.replicate_succ, List.countP_cons] at ih ⊢; omega
  rcases h2 ⟨.processing, n, 0, List.replicate n .pending, some 0⟩ with ⟨-, -, h3⟩
  rw [h3]
  by_cases hn : n = 0
  · subst hn; simp [hrep, countPending]
  · simp only [hrep, if_neg hn]

/-- Claim C5 witness: the invariant applied to a concrete freshly
uploaded project. -/
theorem C5_processed_counter_witness :
    (⟨.extracted, 3, 0, List.replicate 3 .pending, none⟩ : ProjState).processed ≤
      (⟨.extracted, 3, 0, List.replicate 3 .pending, none⟩ : ProjState).total :=
  C5_processed_counter.1 _ (Reachable.uploadOk 3)

/-- A crash-consistent state: a two-image project whose generation task
died after the first image (one row done, one pending,
`processed_images = 1`, no live task). -/
def c5Crashed : ProjState := ⟨.processing, 2, 1, [.done, .pending], none⟩

/-- Claim C5 counterexample: the crash state is reachable, and a
generation run started on it (the resume scenario the claim includes)
finishes with status done but `processed_images = 1 ≠ 2 = total_images`:
the loop overwrites the column with its run-local counter instead of
incrementing it. -/
theorem C5_resume_undercounts :
    Reachable c5Crashed ∧
    (processProject c5Crashed).status = PStatus.done ∧
    (processProject c5Crashed).processed = 1 ∧
    (processProject c5Crashed).total = 2 ∧
    (processProject c5Crashed).processed ≠ (processProject c5Crashed).total := by
  refine ⟨?_, by decide, by decide, by decide, by decide⟩
  have h0 := Reachable.uploadOk 2
  have h1 := Reachable.startGen _ h0 (by decide) rfl
  have h2 := Reachable.procStep _ 0 h1 rfl (by decide)
  have h3 := Reachable.crash _ 1 h2 rfl
  exact h3

/-- Points of an intersection lie in the right operand. -/
theorem pointIn_interR (q : ℚ × ℚ) (a b : VRect) (h : pointIn q (interR a b)) :
    pointIn q b := by
  obtain ⟨h1, h2, h3, h4⟩ := h
  exact ⟨le_trans (le_max_right _ _) h1, le_trans h2 (min_le_right _ _),
    le_trans (le_max_right _ _) h3, le_trans h4 (min_le_right _ _)⟩

/-- Every rectangle the seed loop emits passed all three acceptance
guards and is the padded, page-clipped image of its cluster box. -/
theorem outerAux_mem (data : List DrawItem) (pageRect : VRect) (idx : List (Nat × VRect)) :
    ∀ (todo : List (Nat × VRect)) (used : Finset Nat) (out : VRect),
      out ∈ outerAux data pageRect idx todo used →
      ∃ (cl : Finset Nat) (cr : VRect),
        2 ≤ cl.card ∧ 5 ≤ ∑ j ∈ cl, itemAt data j ∧
        50 ≤ cr.width ∧ 50 ≤ cr.height ∧ out = interR (padR cr 60) pageRect := by
  intro todo
  induction todo with
  | nil => intro used out h; cases h
  | cons p rest ih =>
    intro used out h
    rcases p with ⟨i, r1⟩
    rw [outerAux] at h
    by_cases hu : i ∈ used
    · rw [if_pos hu] at h; exact ih used out h
    · rw [if_neg hu] at h
      dsimp only at h
      by_cases h2 : 2 ≤ (growLoop idx used (data.length + 1) ({i}, r1)).1.card
      · rw [if_pos h2] at h
        by_cases h5 : 5 ≤ ∑ j ∈ (growLoop idx used (data.length + 1) ({i}, r1)).1,
            itemAt data j
        · rw [if_pos h5] at h
          by_cases hwh : 50 ≤ (growLoop idx used (data.length + 1) ({i}, r1)).2.width ∧
              50 ≤ (growLoop idx used (data.length + 1) ({i}, r1)).2.height
          · rw [if_pos hwh] at h
            rcases List.mem_cons.mp h with h1 | h1
            · exact ⟨_, _, h2, h5, hwh.1, hwh.2, h1⟩
            · exact ih _ out h1
          · rw [if_neg hwh] at h; exact ih _ out h
        · rw [if_neg h5] at h; exact ih _ out h
      · rw [if_neg h2] at h; exact ih _ out h

/-- Claim C9: every cluster rectangle output by `_cluster_drawings` comes
from a cluster of at least two surviving draw items whose `item_count`
sum is at least five, whose bounding box before padding is at least 50
wide and 50 tall, and the output rectangle is the 60-padded box clipped
to the page, hence contained in the page rectangle. -/
theorem C9_cluster_acceptance :
    ∀ (ds : List DrawItem) (pageRect : VRect) (out : VRect),
      out ∈ cluster_drawings ds pageRect →
      ∃ (cl : Finset Nat) (cr : VRect),
        2 ≤ cl.card ∧
        5 ≤ ∑ j ∈ cl, itemAt (prefilterDrawings pageRect ds) j ∧
        50 ≤ cr.width ∧ 50 ≤ cr.height ∧
        out = interR (padR cr 60) pageRect ∧
        (∀ q : ℚ × ℚ, pointIn q out → pointIn q pageRect) := by
  intro ds pageRect out h
  rw [cluster_drawings] at h
  obtain ⟨cl, cr, hcard, hsum, hw, hh, hout⟩ :=
    outerAux_mem (prefilterDrawings pageRect ds) pageRect _ _ _ out h
  exact ⟨cl, cr, hcard, hsum, hw, hh, hout,
    fun q hq => pointIn_interR q _ _ (hout ▸ hq)⟩

/-- Claim C9 witness: the acceptance conditions instantiated on a
concrete page with two overlapping boxes of three path segments each,
whose padded cluster is clipped to the page. -/
theorem C9_cluster_acceptance_witness :
    ∃ (cl : Finset Nat) (cr : VRect),
      2 ≤ cl.card ∧
      5 ≤ ∑ j ∈ cl,
        itemAt (prefilterDrawings ⟨0, 0, 595, 842⟩
          [⟨⟨0, 0, 100, 100⟩, 3⟩, ⟨⟨10, 10, 90, 90⟩, 3⟩]) j ∧
      50 ≤ cr.width ∧ 50 ≤ cr.height ∧
      (⟨0, 0, 160, 160⟩ : VRect) = interR (padR cr 60) ⟨0, 0, 595, 842⟩ ∧
      (∀ q : ℚ × ℚ, pointIn q ⟨0, 0, 160, 160⟩ → pointIn q ⟨0, 0, 595, 842⟩) :=
  C9_cluster_acceptance [⟨⟨0, 0, 100, 100⟩, 3⟩, ⟨⟨10, 10, 90, 90⟩, 3⟩]
    ⟨0, 0, 595, 842⟩ ⟨0, 0, 160, 160⟩ (by decide!)

/-! ### Occurrence positions of a pattern, for the marking invariant -/

/-- `pat` occurs in `l` at position `i`. -/
def occursAtP (pat l : List Char) (i : Nat) : Prop :=
  (l.drop i).take pat.length = pat

/-- The Boolean test agrees with the proposition. -/
theorem occursAtB_iff (pat l : List Char) (i : Nat) :
    occursAtB pat l i = true ↔ occursAtP pat l i := by
  simp [occursAtB, occursAtP]

/-- An occurrence of a non-empty pattern fits inside the text. -/
theorem occursAtP_length (pat l : List Char) (i : Nat) (h : occursAtP pat l i)
    (hp : pat ≠ []) : i + pat.length ≤ l.length := by
  have hlen := congrArg List.length h
  rw [List.length_take, List.length_drop] at hlen
  have hp0 : 0 < pat.length := List.length_pos.mpr hp
  omega

/-- Occurrences inside the left part of an append. -/
theorem occursAtP_append_left {pat A : List Char} (B : List Char) {i : Nat}
    (h : occursAtP pat A i) (hfit : i + pat.length ≤ A.length) :
    occursAtP pat (A ++ B) i := by
  unfold occursAtP at h ⊢
  rw [List.drop_append_eq_append_drop]
  have h2 : i - A.length = 0 := by omega
  rw [h2, List.drop_zero, List.take_append_of_le_length (by
    rw [List.length_drop]; omega)]
  exact h

/-- Occurrences inside the right part of an append. -/
theorem occursAtP_append_right {pat B : List Char} (A : List Char) {j : Nat}
    (h : occursAtP pat B j) : occursAtP pat (A ++ B) (A.length + j) := by
  unfold occursAtP at h ⊢
  rw [List.drop_append_eq_append_drop]
  have h1 : A.drop (A.length + j) = [] := List.drop_eq_nil_of_le (by omega)
  rw [h1, List.nil_append]
  have h2 : A.length + j - A.length = j := by omega
  rw [h2, h]

/-- Where an occurrence across an append can sit. -/
theorem occursAtP_append_cases {pat A B : List Char} {i : Nat}
    (h : occursAtP pat (A ++ B) i) :
    (i + pat.length ≤ A.length ∧ occursAtP pat A i) ∨
    (A.length ≤ i ∧ occursAtP pat B (i - A.length)) ∨
    (i < A.length ∧ A.length < i + pat.length) := by
  by_cases h1 : i + pat.length ≤ A.length
  · refine Or.inl ⟨h1, ?_⟩
    unfold occursAtP at h ⊢
    rw [List.drop_append_eq_append_drop] at h
    have h2 : i - A.length = 0 := by omega
    rw [h2, List.drop_zero, List.take_append_of_le_length (by
      rw [List.length_drop]; omega)] at h
    exact h
  · by_cases h2 : A.length ≤ i
    · refine Or.inr (Or.inl ⟨h2, ?_⟩)
      unfold occursAtP at h ⊢
      rw [List.drop_append_eq_append_drop,
        List.drop_eq_nil_of_le (by omega : A.length ≤ i), List.nil_append] at h
      exact h
    · exact Or.inr (Or.inr ⟨by omega, by omega⟩)

/-- Characters of an occurrence. -/
theorem occursAtP_getElem {pat l : List Char} {i : Nat} (h : occursAtP pat l i)
    {j : Nat} (hj : j < pat.length) : pat[j]? = l[i + j]? := by
  unfold occursAtP at h
  conv_lhs => rw [← h]
  rw [List.getElem?_take, if_pos hj, List.getElem?_drop]

/-- Splitting a text at an occurrence. -/
theorem occursAtP_split {pat l : List Char} {i : Nat} (h : occursAtP pat l i) :
    l = l.take i ++ pat ++ l.drop (i + pat.length) := by
  unfold occursAtP at h
  have hdrop : l.drop i = pat ++ l.drop (i + pat.length) := by
    conv_lhs => rw [← List.take_append_drop pat.length (l.drop i)]
    rw [h, List.drop_drop, Nat.add_comm]
  conv_lhs => rw [← List.take_append_drop i l, hdrop]
  rw [← List.append_assoc]

/-- An occurrence inside an occurring block occurs in the whole text. -/
theorem occursAtP_trans {big l sub : List Char} {i j : Nat}
    (hbig : occursAtP big l i) (hsub : occursAtP sub big j)
    (hfit : j + sub.length ≤ big.length) : occursAtP sub l (i + j) := by
  unfold occursAtP at hbig hsub ⊢
  have hdrop : l.drop i = big ++ l.drop (i + big.length) := by
    conv_lhs => rw [← List.take_append_drop big.length (l.drop i)]
    rw [hbig, List.drop_drop, Nat.add_comm]
  rw [← List.drop_drop j i l, hdrop, List.drop_append_eq_append_drop]
  have h2 : j - big.length = 0 := by omega
  rw [h2, List.drop_zero, List.take_append_of_le_length (by
    rw [List.length_drop]; omega)]
  exact hsub

/-- A zero occurrence count excludes occurrences at every position. -/
theorem not_occursAtP_of_countOcc_zero {pat l : List Char} (hp : pat ≠ [])
    (h : countOcc pat l = 0) : ∀ i, ¬ occursAtP pat l i := by
  intro i hocc
  have hle := occursAtP_length pat l i hocc hp
  have hp0 : 0 < pat.length := List.length_pos.mpr hp
  have hmem : i ∈ (Finset.range (l.length + 1)).filter
      (fun k => occursAtB pat l k = true) := by
    rw [Finset.mem_filter, Finset.mem_range]
    exact ⟨by omega, (occursAtB_iff pat l i).mpr hocc⟩
  rw [countOcc, Finset.card_eq_zero] at h
  rw [h] at hmem
  exact absurd hmem (Finset.not_mem_empty i)

/-- A unique occurrence position gives count one. -/
theorem countOcc_eq_one {pat l : List Char} {i0 : Nat} (hp : pat ≠ [])
    (hocc : occursAtP pat l i0) (huniq : ∀ k, occursAtP pat l k → k = i0) :
    countOcc pat l = 1 := by
  rw [countOcc]
  have hset : (Finset.range (l.length + 1)).filter
      (fun k => occursAtB pat l k = true) = {i0} := by
    apply Finset.ext
    intro k
    rw [Finset.mem_filter, Finset.mem_range, Finset.mem_singleton]
    constructor
    · rintro ⟨-, hk⟩
      exact huniq k ((occursAtB_iff pat l k).mp hk)
    · rintro rfl
      have hlen := occursAtP_length pat l _ hocc hp
      have hp0 : 0 < pat.length := List.length_pos.mpr hp
      exact ⟨by omega, (occursAtB_iff pat l _).mpr hocc⟩
  rw [hset, Finset.card_singleton]

/-- Every character `natDecAux` emits is a decimal digit. -/
theorem natDecAux_digits :
    ∀ (fuel n : Nat) (acc : List Char), (∀ c ∈ acc, c.isDigit = true) →
      ∀ c ∈ natDecAux fuel n acc, c.isDigit = true := by
  intro fuel
  induction fuel with
  | zero => intro n acc hacc c hc; exact hacc c hc
  | succ fuel ih =>
    intro n acc hacc c hc
    rw [natDecAux] at hc
    by_cases hn : n < 10
    · rw [if_pos hn] at hc
      rcases List.mem_cons.mp hc with h | h
      · subst h
        interval_cases n <;> decide
      · exact hacc c h
    · rw [if_neg hn] at hc
      refine ih (n / 10) _ ?_ c hc
      intro d hd
      rcases List.mem_cons.mp hd with h | h
      · subst h
        have h10 : n % 10 < 10 := Nat.mod_lt n (by omega)
        interval_cases hh : (n % 10) <;> decide
      · exact hacc d h

/-- Every character of the decimal representation is a digit. -/
theorem natDec_digits (n : Nat) : ∀ c ∈ natDec n, c.isDigit = true :=
  natDecAux_digits (n + 1) n [] (by intro c hc; cases hc)

/-- One step of reading a decimal digit string back as a number. -/
def decStep (a : Nat) (c : Char) : Nat := a * 10 + (c.toNat - 48)

/-- `natDecAux` only lengthens the accumulator. -/
theorem natDecAux_length_le :
    ∀ (fuel n : Nat) (acc : List Char), acc.length ≤ (natDecAux fuel n acc).length := by
  intro fuel
  induction fuel with
  | zero => intro n acc; rw [natDecAux]
  | succ fuel ih =>
    intro n acc
    rw [natDecAux]
    by_cases hn : n < 10
    · rw [if_pos hn]
      simp
    · rw [if_neg hn]
      have := ih (n / 10) (Char.ofNat (48 + n % 10) :: acc)
      simp at this
      omega

/-- The decimal representation is never empty. -/
theorem natDec_ne_nil (n : Nat) : natDec n ≠ [] := by
  rw [natDec, natDecAux]
  by_cases hn : n < 10
  · rw [if_pos hn]
    simp
  · rw [if_neg hn]
    intro h
    have h1 := natDecAux_length_le n (n / 10) (Char.ofNat (48 + n % 10) :: [])
    rw [h] at h1
    simp at h1

/-- Reading back the digits `natDecAux` produces recovers the number. -/
theorem natDecAux_foldl :
    ∀ (fuel n : Nat), n < fuel → ∀ (acc : List Char),
      (natDecAux fuel n acc).foldl decStep 0 = acc.foldl decStep n := by
  intro fuel
  induction fuel with
  | zero => intro n hn; omega
  | succ fuel ih =>
    intro n hn acc
    rw [natDecAux]
    by_cases h10 : n < 10
    · rw [if_pos h10]
      rw [List.foldl_cons]
      have hd : decStep 0 (Char.ofNat (48 + n)) = n := by
        interval_cases n <;> decide
      rw [hd]
    · rw [if_neg h10]
      have hdiv : n / 10 < fuel := by
        have := Nat.div_lt_self (show 0 < n by omega) (show 1 < 10 by omega)
        omega
      rw [ih (n / 10) hdiv]
      rw [List.foldl_cons]
      have hd : decStep (n / 10) (Char.ofNat (48 + n % 10)) = n := by
        have hm : n % 10 < 10 := Nat.mod_lt n (by omega)
        have hv : (Char.ofNat (48 + n % 10)).toNat = 48 + n % 10 := by
          interval_cases hh : (n % 10) <;> decide
        rw [decStep, hv]
        omega
      rw [hd]

/-- Reading back `natDec n` gives `n`. -/
theorem natDec_val (n : Nat) : (natDec n).foldl decStep 0 = n := by
  rw [natDec, natDecAux_foldl (n + 1) n (by omega)]
  rfl

/-- Decimal representations are injective. -/
theorem natDec_inj {a b : Nat} (h : natDec a = natDec b) : a = b := by
  have := natDec_val a
  rw [h, natDec_val b] at this
  exact this.symm



instance (pat l : List Char) (i : Nat) : Decidable (occursAtP pat l i) :=
  inferInstanceAs (Decidable ((l.drop i).take pat.length = pat))

/-- The seven-character probe `<</MCID` contained in every marker. -/
def mcidPat : List Char := "<</MCID".data

/-- The fixed prefix of every marker. -/
def markerPre : List Char := "/Figure <</MCID ".data

/-- The fixed suffix of every marker. -/
def markerSuf : List Char := ">> BDC".data

/-- The marker, decomposed around its digit block. -/
theorem bdcMarker_eq (mcid : Nat) :
    bdcMarker mcid = markerPre ++ (natDec mcid ++ markerSuf) := by
  rw [bdcMarker, markerPre, markerSuf, List.append_assoc]

/-- The probe occurs at offset 8 of every marker. -/
theorem occursP_at8_marker (mcid : Nat) :
    occursAtP mcidPat (bdcMarker mcid) 8 := by
  rw [bdcMarker_eq]
  unfold occursAtP
  rw [List.drop_append_eq_append_drop]
  have h1 : (8 : Nat) - markerPre.length = 0 := by decide
  rw [h1, List.drop_zero, List.take_append_of_le_length (by decide)]
  decide

/-- The probe occurs in a marker only at offset 8. -/
theorem occursP_in_marker {mcid j : Nat}
    (h : occursAtP mcidPat (bdcMarker mcid) j) : j = 8 := by
  rw [bdcMarker_eq] at h
  rcases occursAtP_append_cases h with ⟨hfit, hF⟩ | ⟨hge, hrest⟩ | ⟨h1, h2⟩
  · have hlen := occursAtP_length _ _ _ hF (by decide)
    have hb : j ≤ 9 := by
      have hl : mcidPat.length = 7 := rfl
      have hFl : markerPre.length = 16 := rfl
      omega
    interval_cases j <;> first | rfl | (exfalso; revert hF; decide)
  · exfalso
    have h0 : mcidPat[0]? = (natDec mcid ++ markerSuf)[j - markerPre.length]? := by
      have := occursAtP_getElem hrest (show 0 < mcidPat.length by decide)
      simpa using this
    have hc : (natDec mcid ++ markerSuf)[j - markerPre.length]? = some '<' := by
      rw [← h0]; decide
    have hmem : '<' ∈ natDec mcid ++ markerSuf := List.getElem?_mem hc
    rcases List.mem_append.mp hmem with hd | hg
    · have := natDec_digits mcid '<' hd
      exact absurd this (by decide)
    · revert hg; decide
  · exfalso
    have hj0lt : markerPre.length - j < mcidPat.length := by
      have hl : mcidPat.length = 7 := rfl
      omega
    have hch := occursAtP_getElem h hj0lt
    have hidx : j + (markerPre.length - j) = markerPre.length := by omega
    rw [hidx] at hch
    have hR : (markerPre ++ (natDec mcid ++ markerSuf))[markerPre.length]? =
        (natDec mcid ++ markerSuf)[0]? := by
      rw [List.getElem?_append_right (le_refl _)]
      simp
    rw [hR] at hch
    rcases hD : natDec mcid with _ | ⟨d, ds⟩
    · rw [hD] at hch
      simp only [List.nil_append] at hch
      have hm : '>' ∈ mcidPat := List.getElem?_mem (by rw [hch]; rfl)
      revert hm; decide
    · rw [hD] at hch
      have hch2 : mcidPat[markerPre.length - j]? = some d := by simpa using hch
      have hdmem : d ∈ mcidPat := List.getElem?_mem hch2
      have hdig : d.isDigit = true :=
        natDec_digits mcid d (by rw [hD]; exact List.mem_cons_self d ds)
      have hnd : ∀ c ∈ mcidPat, c.isDigit = false := by decide
      have := hnd d hdmem
      rw [hdig] at this
      cases this

/-- Length of a marker. -/
theorem bdcMarker_length (m : Nat) :
    (bdcMarker m).length = 22 + (natDec m).length := by
  rw [bdcMarker_eq, List.length_append, List.length_append]
  have h1 : markerPre.length = 16 := rfl
  have h2 : markerSuf.length = 6 := rfl
  omega

/-- The digit block of a marker, by index. -/
theorem bdcMarker_getElem_digit {m j : Nat} (hj : j < (natDec m).length) :
    (bdcMarker m)[16 + j]? = (natDec m)[j]? := by
  rw [bdcMarker_eq]
  have h16 : markerPre.length = 16 := rfl
  rw [List.getElem?_append_right (by omega)]
  rw [h16, show 16 + j - 16 = j by omega]
  rw [List.getElem?_append, if_pos hj]

/-- The delimiter after the digit block of a marker. -/
theorem bdcMarker_getElem_gt (m : Nat) :
    (bdcMarker m)[16 + (natDec m).length]? = some '>' := by
  rw [bdcMarker_eq]
  have h16 : markerPre.length = 16 := rfl
  rw [List.getElem?_append_right (by omega)]
  rw [h16, show 16 + (natDec m).length - 16 = (natDec m).length by omega]
  rw [List.getElem?_append_right (le_refl _)]
  rw [Nat.sub_self]
  rfl

/-- Two markers occurring at the same position cannot have digit blocks of
different lengths: the delimiter `>` of the shorter would be a digit of the
longer. -/
theorem marker_len_not_lt {l : List Char} {p m m' : Nat}
    (h1 : occursAtP (bdcMarker m) l p) (h2 : occursAtP (bdcMarker m') l p) :
    ¬ (natDec m).length < (natDec m').length := by
  intro hlt
  have hja : 16 + (natDec m).length < (bdcMarker m).length := by
    rw [bdcMarker_length]; omega
  have hja' : 16 + (natDec m).length < (bdcMarker m').length := by
    rw [bdcMarker_length]; omega
  have e1 := occursAtP_getElem h1 hja
  have e2 := occursAtP_getElem h2 hja'
  have e3 : (bdcMarker m)[16 + (natDec m).length]? =
      (bdcMarker m')[16 + (natDec m).length]? := e1.trans e2.symm
  rw [bdcMarker_getElem_gt, bdcMarker_getElem_digit hlt] at e3
  have hmem : '>' ∈ natDec m' := List.getElem?_mem e3.symm
  have := natDec_digits m' '>' hmem
  exact absurd this (by decide)

/-- Two markers occurring at the same position carry the same MCID. -/
theorem bdcMarker_occ_unique {l : List Char} {p m m' : Nat}
    (h1 : occursAtP (bdcMarker m) l p) (h2 : occursAtP (bdcMarker m') l p) :
    m = m' := by
  have hle1 := marker_len_not_lt h1 h2
  have hle2 := marker_len_not_lt h2 h1
  have hab : (natDec m).length = (natDec m').length := by omega
  apply natDec_inj
  apply List.ext_getElem?
  intro j
  by_cases hj : j < (natDec m).length
  · have hja : 16 + j < (bdcMarker m).length := by rw [bdcMarker_length]; omega
    have hja' : 16 + j < (bdcMarker m').length := by rw [bdcMarker_length]; omega
    have e1 := occursAtP_getElem h1 hja
    have e2 := occursAtP_getElem h2 hja'
    have e3 : (bdcMarker m)[16 + j]? = (bdcMarker m')[16 + j]? := e1.trans e2.symm
    rw [bdcMarker_getElem_digit hj, bdcMarker_getElem_digit (hab ▸ hj)] at e3
    exact e3
  · rw [List.getElem?_eq_none (by omega), List.getElem?_eq_none (by omega)]



/-- Occurrence in a cons: at the head, or shifted into the tail. -/
theorem occursAtP_cons {pat : List Char} (hp : 0 < pat.length) {c : Char}
    {tail : List Char} {j : Nat} (h : occursAtP pat (c :: tail) j) :
    (pat[0]? = some c) ∨ (1 ≤ j ∧ occursAtP pat tail (j - 1)) := by
  cases j with
  | zero =>
    left
    have := occursAtP_getElem h hp
    simpa using this
  | succ j' =>
    right
    refine ⟨by omega, ?_⟩
    unfold occursAtP at h ⊢
    simpa using h

/-- The boundary character of a crossing occurrence. -/
theorem cross_char {pat A B : List Char} {i : Nat} (h : occursAtP pat (A ++ B) i)
    (h1 : i < A.length) (h2 : A.length < i + pat.length) :
    pat[A.length - i]? = B[0]? := by
  have hj0 : A.length - i < pat.length := by omega
  have hch := occursAtP_getElem h hj0
  rw [show i + (A.length - i) = A.length by omega] at hch
  rw [List.getElem?_append_right (le_refl A.length)] at hch
  simpa using hch

/-- Taking the length of a take changes nothing. -/
theorem take_len_take (L : List Char) (n : Nat) :
    L.take (L.take n).length = L.take n := by
  rw [List.length_take]
  rcases le_total n L.length with h | h
  · rw [Nat.min_eq_left h]
  · rw [Nat.min_eq_right h, List.take_length, List.take_of_length_le h]

/-- A successful `figMatchAt` returns a non-empty prefix of its input. -/
theorem figMatchAt_eq_take {nm l r : List Char} (h : figMatchAt nm l = some r) :
    ∃ n, r = l.take n ∧ r ≠ [] := by
  unfold figMatchAt at h
  split at h
  · rename_i c t
    split at h
    · rcases Option.map_eq_some'.mp h with ⟨m0, -, hr⟩
      refine ⟨2 + m0, hr.symm, ?_⟩
      rw [← hr]
      simp
    · cases h
  · cases h

/-- A successful `re.search` of the figure pattern yields an occurring,
non-empty matched substring. -/
theorem reSearch_figMatch {nm : List Char} : ∀ {l r : List Char},
    reSearch (figMatchAt nm) l = some r → ∃ i, occursAtP r l i ∧ r ≠ [] := by
  intro l
  induction l with
  | nil =>
    intro r h
    rw [reSearch] at h
    rcases figMatchAt_eq_take h with ⟨n, hrt, hne⟩
    exact ⟨0, by rw [hrt]; unfold occursAtP; rw [List.drop_zero]; exact take_len_take _ _, hne⟩
  | cons c t ih =>
    intro r h
    rw [reSearch] at h
    rcases hm : figMatchAt nm (c :: t) with _ | r'
    · rw [hm] at h
      rcases ih h with ⟨i, hi, hne⟩
      refine ⟨i + 1, ?_, hne⟩
      unfold occursAtP at hi ⊢
      simpa using hi
    · rw [hm] at h
      have hr : r' = r := Option.some.inj h
      subst hr
      rcases figMatchAt_eq_take hm with ⟨n, hrt, hne⟩
      refine ⟨0, ?_, hne⟩
      rw [hrt]
      unfold occursAtP
      rw [List.drop_zero]
      exact take_len_take _ _

/-- No occurrence anywhere gives count zero. -/
theorem countOcc_eq_zero_of {pat l : List Char}
    (h : ∀ i, ¬ occursAtP pat l i) : countOcc pat l = 0 := by
  rw [countOcc, Finset.card_eq_zero, Finset.filter_eq_empty_iff]
  intro i _
  rw [occursAtB_iff]
  exact h i

/-- `findIdx` finds occurrences. -/
theorem findIdx_some_occurs {pat l : List Char} {i : Nat}
    (h : findIdx pat l = some i) : occursAtP pat l i :=
  (occursAtB_iff pat l i).mp (List.find?_some h)

/-- `findIdx` succeeds when an occurrence exists. -/
theorem findIdx_isSome_of_occurs {pat l : List Char} {i : Nat} (hne : pat ≠ [])
    (h : occursAtP pat l i) : ∃ i1, findIdx pat l = some i1 := by
  rcases hf : findIdx pat l with _ | i1
  · exfalso
    unfold findIdx at hf
    have hall := List.find?_eq_none.mp hf
    have hmem : i ∈ List.range (l.length + 1) := by
      rw [List.mem_range]
      have h1 := occursAtP_length _ _ _ h hne
      have h2 := List.length_pos.mpr hne
      omega
    exact absurd ((occursAtB_iff _ _ _).mpr h) (by simpa using hall i hmem)
  · exact ⟨i1, rfl⟩

/-- A successful literal match decomposes the input. -/
theorem expectLit_some {lit l r : List Char} (h : expectLit lit l = some r) :
    l = lit ++ r := by
  unfold expectLit at h
  split at h
  · rename_i hc
    have hr := Option.some.inj h
    conv_lhs => rw [← List.take_append_drop lit.length l]
    rw [hc, hr]
  · cases h

/-- A successful whitespace eat decomposes the input. -/
theorem eatWs1_some {l r : List Char} (h : eatWs1 l = some r) :
    ∃ u, l = u ++ r := by
  match l with
  | [] => rw [eatWs1] at h; cases h
  | c :: t =>
    rw [eatWs1] at h
    split at h
    · have hr := Option.some.inj h
      refine ⟨c :: t.takeWhile pyWs, ?_⟩
      rw [← hr]
      rw [List.cons_append]
      rw [List.takeWhile_append_dropWhile]
    · cases h

/-- A successful tail match ends with the character `Q`. -/
theorem figTailLen_some {name l : List Char} {m : Nat}
    (h : figTailLen name l = some m) :
    ∃ U r4, l = U ++ 'Q' :: r4 ∧ m = U.length + 1 := by
  unfold figTailLen at h
  split at h
  · rename_i r hE
    split at h
    · rename_i r2 hW
      split at h
      · rename_i r3 hD
        split at h
        · rename_i r4 hQ
          have hm := Option.some.inj h
          obtain ⟨u, hu⟩ := eatWs1_some hW
          have hr3 : r3 = r3.takeWhile pyWs ++ 'Q' :: r4 := by
            conv_lhs => rw [← List.takeWhile_append_dropWhile (p := pyWs) (l := r3)]
            rw [hQ]
          have hL : l = (('/' :: name) ++ (u ++ ("Do".data ++ r3.takeWhile pyWs)))
              ++ 'Q' :: r4 := by
            rw [expectLit_some hE, hu, expectLit_some hD]
            conv_lhs => rw [hr3]
            simp [List.append_assoc]
          refine ⟨_, r4, hL, ?_⟩
          have hlen := congrArg List.length hL
          rw [List.length_append, List.length_cons] at hlen
          omega
        · cases h
      · cases h
    · cases h
  · cases h

/-- A successful lazy scan's match ends with `Q`. -/
theorem figLazy_ends {name : List Char} : ∀ {l : List Char} {m : Nat},
    figLazy name l = some m → 1 ≤ m ∧ m ≤ l.length ∧ l[m - 1]? = some 'Q' := by
  intro l
  induction l with
  | nil => intro m h; rw [figLazy] at h; cases h
  | cons c t ih =>
    intro m h
    rw [figLazy] at h
    rcases hT : figTailLen name (c :: t) with _ | m0 <;> rw [hT] at h
    · dsimp only at h
      split at h
      · cases h
      · rcases hrec : figLazy name t with _ | m' <;> rw [hrec] at h
        · cases h
        · simp only [Option.map_some'] at h
          have hm := Option.some.inj h
          obtain ⟨h1, h2, h3⟩ := ih hrec
          refine ⟨by omega, by simp; omega, ?_⟩
          rw [← hm]
          simp only [Nat.add_sub_cancel]
          rw [show m' = (m' - 1) + 1 by omega, List.getElem?_cons_succ]
          exact h3
    · dsimp only at h
      have hm := Option.some.inj h
      obtain ⟨U, r4, hL, hU⟩ := figTailLen_some hT
      subst hm
      have hlen := congrArg List.length hL
      rw [List.length_cons, List.length_append, List.length_cons] at hlen
      refine ⟨by omega, by rw [List.length_cons]; omega, ?_⟩
      rw [hL, hU]
      simp only [Nat.add_sub_cancel]
      rw [List.getElem?_append_right (le_refl _)]
      rw [Nat.sub_self]
      exact List.getElem?_cons_zero

/-- A successful `figMatchAt` match starts with `q` and ends with `Q`. -/
theorem figMatchAt_char {nm l r : List Char} (h : figMatchAt nm l = some r) :
    r[0]? = some 'q' ∧ 2 ≤ r.length ∧ r[r.length - 1]? = some 'Q' := by
  unfold figMatchAt at h
  split at h
  · rename_i c t
    split at h
    · rcases Option.map_eq_some'.mp h with ⟨m0, hm0, hr⟩
      obtain ⟨h1, h2, h3⟩ := figLazy_ends hm0
      have hrform : ('q' :: c :: t).take (2 + m0) = 'q' :: c :: t.take m0 := by
        rw [show 2 + m0 = (m0 + 1) + 1 by omega]
        rw [List.take_succ_cons, List.take_succ_cons]
      rw [hrform] at hr
      subst hr
      have hlen : ('q' :: c :: t.take m0).length = 2 + m0 := by
        simp [List.length_take]
        omega
      refine ⟨rfl, by omega, ?_⟩
      rw [hlen]
      rw [show 2 + m0 - 1 = (m0 - 1 + 1) + 1 by omega]
      rw [List.getElem?_cons_succ, List.getElem?_cons_succ]
      rw [List.getElem?_take, if_pos (by omega)]
      exact h3
    · cases h
  · cases h

/-- A successful `re.search` of the figure pattern yields a match starting
with `q` and ending with `Q`. -/
theorem reSearch_fig_char {nm : List Char} : ∀ {l r : List Char},
    reSearch (figMatchAt nm) l = some r →
    r[0]? = some 'q' ∧ 2 ≤ r.length ∧ r[r.length - 1]? = some 'Q' := by
  intro l
  induction l with
  | nil => intro r h; rw [reSearch] at h; exact figMatchAt_char h
  | cons c t ih =>
    intro r h
    rw [reSearch] at h
    rcases hm : figMatchAt nm (c :: t) with _ | r' <;> rw [hm] at h
    · exact ih h
    · have hr := Option.some.inj h
      exact figMatchAt_char (hr ▸ hm)

/-- A character outside the fixed parts that is not a digit is not in any
marker. -/
theorem not_mem_bdcMarker {c : Char} (hc1 : c ∉ markerPre)
    (hc2 : c.isDigit = false) (hc3 : c ∉ markerSuf) (m : Nat) :
    c ∉ bdcMarker m := by
  intro h
  rw [bdcMarker_eq] at h
  rcases List.mem_append.mp h with h | h
  · exact hc1 h
  · rcases List.mem_append.mp h with h | h
    · rw [natDec_digits m c h] at hc2; cases hc2
    · exact hc3 h

/-- The marker never contains a lowercase `q`. -/
theorem q_not_mem_marker (m : Nat) : 'q' ∉ bdcMarker m :=
  not_mem_bdcMarker (by decide) (by decide) (by decide) m

/-- The marker never contains an uppercase `Q`. -/
theorem Q_not_mem_marker (m : Nat) : 'Q' ∉ bdcMarker m :=
  not_mem_bdcMarker (by decide) (by decide) (by decide) m

/-- Characters lying under an occurrence belong to the pattern. -/
theorem occursAtP_mem_of_between {pat l : List Char} {p x : Nat} {c : Char}
    (h : occursAtP pat l p) (h1 : p ≤ x) (h2 : x < p + pat.length)
    (hc : l[x]? = some c) : c ∈ pat := by
  have hg := occursAtP_getElem h (show x - p < pat.length by omega)
  rw [show p + (x - p) = x by omega, hc] at hg
  exact List.getElem?_mem hg

/-- Every list occurs in itself at position zero. -/
theorem occursAtP_self (l : List Char) : occursAtP l l 0 := by
  unfold occursAtP
  rw [List.drop_zero, List.take_length]

/-- An occurrence fitting inside the left part restricts there. -/
theorem occ_extract_left {pat A : List Char} (B : List Char) {p : Nat}
    (hpat : pat ≠ []) (h : occursAtP pat (A ++ B) p)
    (hfit : p + pat.length ≤ A.length) : occursAtP pat A p := by
  rcases occursAtP_append_cases h with ⟨-, hin⟩ | ⟨hge, -⟩ | ⟨-, hgt⟩
  · exact hin
  · exfalso; have := List.length_pos.mpr hpat; omega
  · exfalso; omega

/-- An occurrence starting past the left part restricts to the right. -/
theorem occ_extract_right {pat A B : List Char} {p : Nat}
    (hpat : pat ≠ []) (h : occursAtP pat (A ++ B) p)
    (hge : A.length ≤ p) : occursAtP pat B (p - A.length) := by
  rcases occursAtP_append_cases h with ⟨hfit, -⟩ | ⟨-, hin⟩ | ⟨hlt, -⟩
  · exfalso; have := List.length_pos.mpr hpat; omega
  · exact hin
  · exfalso; omega

/-- An occurrence fitting inside the middle block restricts there. -/
theorem occ_extract_mid {pat A B C : List Char} {p : Nat} (hpat : pat ≠ [])
    (h : occursAtP pat (A ++ B ++ C) p) (h1 : A.length ≤ p)
    (h2 : p + pat.length ≤ A.length + B.length) :
    occursAtP pat B (p - A.length) := by
  have hAB : occursAtP pat (A ++ B) p :=
    occ_extract_left C hpat h (by rw [List.length_append]; omega)
  exact occ_extract_right hpat hAB h1

/-- Length of the wrapped replacement text. -/
theorem bdcWrap_length (m : Nat) (orig : List Char) :
    (bdcWrap m orig).length = (bdcMarker m).length + orig.length + 5 := by
  rw [bdcWrap, List.length_append, List.length_cons, List.length_append,
    List.length_cons]
  have h3 : ("EMC".data).length = 3 := rfl
  omega

/-- An occurrence left of the replaced block survives the wrap unmoved. -/
theorem occ_in_wrap_left {pat pre orig post : List Char} {m p : Nat}
    (hpat : pat ≠ []) (h : occursAtP pat (pre ++ orig ++ post) p)
    (hfit : p + pat.length ≤ pre.length) :
    occursAtP pat (pre ++ bdcWrap m orig ++ post) p := by
  have h' : occursAtP pat (pre ++ (orig ++ post)) p := by
    rw [← List.append_assoc]; exact h
  have hpre : occursAtP pat pre p := occ_extract_left (orig ++ post) hpat h' hfit
  have hres := occursAtP_append_left (bdcWrap m orig ++ post) hpre hfit
  rw [← List.append_assoc] at hres
  exact hres

/-- The wrap written as marker-plus-newline before the block. -/
theorem bdcWrap_decomp (m : Nat) (orig : List Char) :
    bdcWrap m orig = (bdcMarker m ++ ['\n']) ++ (orig ++ '\n' :: "EMC".data) := by
  rw [bdcWrap, List.append_assoc]
  rfl

/-- An occurrence inside the replaced block survives the wrap, shifted by
the inserted marker and newline. -/
theorem occ_in_wrap_mid {pat pre orig post : List Char} {m p : Nat}
    (hpat : pat ≠ []) (h : occursAtP pat (pre ++ orig ++ post) p)
    (h1 : pre.length ≤ p) (h2 : p + pat.length ≤ pre.length + orig.length) :
    occursAtP pat (pre ++ bdcWrap m orig ++ post)
      (p + (bdcMarker m).length + 1) := by
  have hsub : occursAtP pat orig (p - pre.length) := occ_extract_mid hpat h h1 h2
  have h0 : occursAtP orig (orig ++ '\n' :: "EMC".data) 0 :=
    occursAtP_append_left _ (occursAtP_self orig) (by omega)
  have ho : occursAtP orig (bdcWrap m orig) ((bdcMarker m).length + 1) := by
    rw [bdcWrap_decomp]
    have hlift := occursAtP_append_right (bdcMarker m ++ ['\n']) h0
    rw [List.length_append] at hlift
    simpa using hlift
  have ho2 : occursAtP orig (bdcWrap m orig ++ post) ((bdcMarker m).length + 1) :=
    occursAtP_append_left post ho (by rw [bdcWrap_length]; omega)
  have ho3 := occursAtP_append_right pre ho2
  rw [← List.append_assoc] at ho3
  have htr := occursAtP_trans ho3 hsub (by omega)
  rw [show pre.length + ((bdcMarker m).length + 1) + (p - pre.length) =
    p + (bdcMarker m).length + 1 by omega] at htr
  exact htr

/-- An occurrence right of the replaced block survives the wrap, shifted by
the net growth of the stream. -/
theorem occ_in_wrap_right {pat pre orig post : List Char} {m p : Nat}
    (hpat : pat ≠ []) (h : occursAtP pat (pre ++ orig ++ post) p)
    (h1 : pre.length + orig.length ≤ p) :
    occursAtP pat (pre ++ bdcWrap m orig ++ post)
      (p + (bdcMarker m).length + 5) := by
  have hsub : occursAtP pat post (p - (pre.length + orig.length)) := by
    have hx := occ_extract_right (A := pre ++ orig) hpat h
      (by rw [List.length_append]; omega)
    rw [List.length_append] at hx
    exact hx
  have h2 := occursAtP_append_right (pre ++ bdcWrap m orig) hsub
  rw [show (pre ++ bdcWrap m orig).length + (p - (pre.length + orig.length)) =
    p + (bdcMarker m).length + 5 by
      rw [List.length_append, bdcWrap_length]; omega] at h2
  exact h2

/-- Probe occurrences after wrapping an occurring block: each is either the
probe of the newly inserted marker, or an occurrence already present in the
unwrapped stream, lying entirely left of, inside, or right of the replaced
block, shifted accordingly. -/
theorem probe_after_wrap (pre orig post : List Char) (m : Nat) :
    ∀ k, occursAtP mcidPat (pre ++ bdcWrap m orig ++ post) k →
      k = pre.length + 8 ∨
      (k + 7 ≤ pre.length ∧ occursAtP mcidPat (pre ++ orig ++ post) k) ∨
      (∃ j, j + 7 ≤ orig.length ∧ k = pre.length + (bdcMarker m).length + 1 + j ∧
        occursAtP mcidPat (pre ++ orig ++ post) (pre.length + j)) ∨
      (∃ j, k = pre.length + (bdcMarker m).length + 5 + orig.length + j ∧
        occursAtP mcidPat (pre ++ orig ++ post) (pre.length + orig.length + j)) := by
  have hP0 : mcidPat[0]? = some '<' := rfl
  have hP7 : mcidPat.length = 7 := rfl
  have hWP : bdcWrap m orig ++ post =
      bdcMarker m ++ ('\n' :: ((orig ++ '\n' :: "EMC".data) ++ post)) := by
    rw [bdcWrap, List.append_assoc, List.cons_append]
  have h16 : 16 ≤ (bdcMarker m).length := by
    rw [bdcMarker_length]; omega
  intro k hk
  rw [List.append_assoc] at hk
  rcases occursAtP_append_cases hk with ⟨hfit, hin⟩ | ⟨hge, hin⟩ | ⟨hlt, hgt⟩
  · refine Or.inr (Or.inl ⟨by omega, ?_⟩)
    rw [List.append_assoc]
    exact occursAtP_append_left (orig ++ post) hin hfit
  · rw [hWP] at hin
    rcases occursAtP_append_cases hin with ⟨hfit2, hin2⟩ | ⟨hge2, hin2⟩ | ⟨hlt2, hgt2⟩
    · have h8 := occursP_in_marker hin2
      exact Or.inl (by omega)
    · rcases occursAtP_cons (by decide) hin2 with hhead | ⟨hge3, hin3⟩
      · rw [hP0] at hhead
        exact absurd hhead (by decide)
      · have hI : (orig ++ '\n' :: "EMC".data) ++ post =
            orig ++ ('\n' :: ("EMC".data ++ post)) := by
          rw [List.append_assoc, List.cons_append]
        rw [hI] at hin3
        rcases occursAtP_append_cases hin3 with ⟨hfit4, hin4⟩ | ⟨hge4, hin4⟩ | ⟨hlt4, hgt4⟩
        · refine Or.inr (Or.inr (Or.inl ⟨k - pre.length - (bdcMarker m).length - 1,
            by omega, by omega, ?_⟩))
          rw [List.append_assoc]
          exact occursAtP_append_right pre (occursAtP_append_left post hin4 hfit4)
        · rcases occursAtP_cons (by decide) hin4 with hhead | ⟨hge5, hin5⟩
          · rw [hP0] at hhead
            exact absurd hhead (by decide)
          · have hE : "EMC".data ++ post = 'E' :: 'M' :: 'C' :: post := rfl
            rw [hE] at hin5
            rcases occursAtP_cons (by decide) hin5 with hhead | ⟨hge6, hin6⟩
            · rw [hP0] at hhead
              exact absurd hhead (by decide)
            rcases occursAtP_cons (by decide) hin6 with hhead | ⟨hge7, hin7⟩
            · rw [hP0] at hhead
              exact absurd hhead (by decide)
            rcases occursAtP_cons (by decide) hin7 with hhead | ⟨hge8, hin8⟩
            · rw [hP0] at hhead
              exact absurd hhead (by decide)
            refine Or.inr (Or.inr (Or.inr
              ⟨k - pre.length - (bdcMarker m).length - 1 - orig.length - 1 - 1 - 1 - 1,
                by omega, ?_⟩))
            have hocc := occursAtP_append_right (pre ++ orig) hin8
            rw [List.length_append] at hocc
            exact hocc
        · have hcc := cross_char hin3 hlt4 hgt4
          have hmem : '\n' ∈ mcidPat :=
            List.getElem?_mem (by rw [hcc]; exact List.getElem?_cons_zero)
          exact absurd hmem (by decide)
    · have hcc := cross_char hin hlt2 hgt2
      have hmem : '\n' ∈ mcidPat :=
        List.getElem?_mem (by rw [hcc]; exact List.getElem?_cons_zero)
      exact absurd hmem (by decide)
  · exfalso
    have hcc := cross_char hk hlt hgt
    have hw0 : (bdcWrap m orig ++ post)[0]? = some '/' := by
      rw [bdcWrap, bdcMarker_eq]
      rfl
    rw [hw0] at hcc
    obtain ⟨j0, hj0⟩ : ∃ j0, pre.length - k = j0 := ⟨_, rfl⟩
    rw [hj0] at hcc
    have hj0b : j0 < 7 := by omega
    have hj0g : 1 ≤ j0 := by omega
    interval_cases j0
    · exact absurd hcc (by decide)
    · have hch3 := occursAtP_getElem hk (show 3 < mcidPat.length by decide)
      have hk3 : k + 3 = pre.length + 1 := by omega
      rw [hk3] at hch3
      have hstep : (pre ++ (bdcWrap m orig ++ post))[pre.length + 1]? =
          (bdcWrap m orig ++ post)[1]? := by
        rw [List.getElem?_append_right (by omega)]
        congr 1
        omega
      rw [hstep] at hch3
      have h1F : (bdcWrap m orig ++ post)[1]? = some 'F' := by
        rw [bdcWrap, bdcMarker_eq]
        rfl
      rw [h1F] at hch3
      exact absurd hch3 (by decide)
    · exact absurd hcc (by decide)
    · exact absurd hcc (by decide)
    · exact absurd hcc (by decide)
    · exact absurd hcc (by decide)

/-- The MCIDs whose `re.search` (line 530) located the figure pattern, in
loop order, each search running on the stream as rewritten by the earlier
iterations. -/
def locatedMcids : List Char → List (Nat × String) → List Nat
  | _, [] => []
  | s, f :: t =>
    (if (reSearch (figMatchAt f.2.data) s).isSome then [f.1] else []) ++
      locatedMcids (markOne s f) t

/-- Mapping the first component leaves the second components unchanged. -/
theorem map_snd_pair_map (P : List (Nat × Nat)) (g : Nat × Nat → Nat) :
    (P.map (fun e => (g e, e.2))).map Prod.snd = P.map Prod.snd := by
  induction P with
  | nil => rfl
  | cons e t ih => simp [ih]

/-- One marking step preserves the marker layout: every tracked marker
still occurs (shifted around the wrapped block), every probe occurrence of
the new stream lies at a tracked marker's offset 8, and the tracked MCIDs
grow by the new one exactly when the pattern was located. -/
theorem markOne_layout (s : List Char) (P : List (Nat × Nat)) (m : Nat) (nm : String)
    (hA : ∀ e ∈ P, occursAtP (bdcMarker e.2) s e.1)
    (hB : ∀ k, occursAtP mcidPat s k → ∃ e ∈ P, k = e.1 + 8) :
    ∃ P2 : List (Nat × Nat),
      (∀ e ∈ P2, occursAtP (bdcMarker e.2) (markOne s (m, nm)) e.1) ∧
      (∀ k, occursAtP mcidPat (markOne s (m, nm)) k → ∃ e ∈ P2, k = e.1 + 8) ∧
      P2.map Prod.snd = P.map Prod.snd ++
        (if (reSearch (figMatchAt nm.data) s).isSome then [m] else []) := by
  rcases hsr : reSearch (figMatchAt nm.data) s with _ | orig
  · have hmark : markOne s (m, nm) = s := by simp [markOne, hsr]
    refine ⟨P, ?_, ?_, ?_⟩
    · rw [hmark]; exact hA
    · rw [hmark]; exact hB
    · simp [hsr]
  · have hPne : mcidPat ≠ [] := by decide
    obtain ⟨i0, hocc0, hne⟩ := reSearch_figMatch hsr
    obtain ⟨i1, hf⟩ := findIdx_isSome_of_occurs hne hocc0
    have hocc1 : occursAtP orig s i1 := findIdx_some_occurs hf
    have hmark : markOne s (m, nm) =
        s.take i1 ++ bdcWrap m orig ++ s.drop (i1 + orig.length) := by
      simp [markOne, hsr, replaceFirstL, hf]
    have hsplit : s = s.take i1 ++ orig ++ s.drop (i1 + orig.length) :=
      occursAtP_split hocc1
    have hlen_i1 : i1 + orig.length ≤ s.length := occursAtP_length _ _ _ hocc1 hne
    have hlenA : (s.take i1).length = i1 := by
      rw [List.length_take]; omega
    obtain ⟨hq0, horig2, hQlast⟩ := reSearch_fig_char hsr
    have hq : s[i1]? = some 'q' := by
      conv_lhs => rw [hsplit]
      rw [List.append_assoc,
        List.getElem?_append_right (show (s.take i1).length ≤ i1 by omega)]
      rw [hlenA, Nat.sub_self]
      rw [List.getElem?_append, if_pos (by omega)]
      exact hq0
    have hQ : s[i1 + orig.length - 1]? = some 'Q' := by
      conv_lhs => rw [hsplit]
      rw [List.append_assoc,
        List.getElem?_append_right
          (show (s.take i1).length ≤ i1 + orig.length - 1 by omega)]
      rw [hlenA, show i1 + orig.length - 1 - i1 = orig.length - 1 by omega]
      rw [List.getElem?_append, if_pos (by omega)]
      exact hQlast
    have hclass : ∀ e ∈ P, e.1 + (bdcMarker e.2).length ≤ i1 ∨
        (i1 ≤ e.1 ∧ e.1 + (bdcMarker e.2).length ≤ i1 + orig.length) ∨
        i1 + orig.length ≤ e.1 := by
      intro e he
      have hocc := hA e he
      have hmk0 : 0 < (bdcMarker e.2).length := by rw [bdcMarker_length]; omega
      by_cases hc1 : e.1 + (bdcMarker e.2).length ≤ i1
      · exact Or.inl hc1
      by_cases hc3 : i1 + orig.length ≤ e.1
      · exact Or.inr (Or.inr hc3)
      refine Or.inr (Or.inl ⟨?_, ?_⟩)
      · by_contra hlt
        have hmemq := occursAtP_mem_of_between hocc (show e.1 ≤ i1 by omega)
          (show i1 < e.1 + (bdcMarker e.2).length by omega) hq
        exact q_not_mem_marker e.2 hmemq
      · by_contra hgt
        have hmemQ := occursAtP_mem_of_between hocc
          (show e.1 ≤ i1 + orig.length - 1 by omega)
          (show i1 + orig.length - 1 < e.1 + (bdcMarker e.2).length by omega) hQ
        exact Q_not_mem_marker e.2 hmemQ
    refine ⟨P.map (fun e =>
        (if e.1 + (bdcMarker e.2).length ≤ i1 then e.1
         else if e.1 + (bdcMarker e.2).length ≤ i1 + orig.length then
           e.1 + (bdcMarker m).length + 1
         else e.1 + (bdcMarker m).length + 5, e.2)) ++ [(i1, m)], ?_, ?_, ?_⟩
    · intro e' he'
      rw [hmark]
      rcases List.mem_append.mp he' with hmem | hmem
      · obtain ⟨e, he, hee⟩ := List.mem_map.mp hmem
        have hoccs : occursAtP (bdcMarker e.2)
            (s.take i1 ++ orig ++ s.drop (i1 + orig.length)) e.1 := by
          rw [← hsplit]; exact hA e he
        have hmklen : 0 < (bdcMarker e.2).length := by rw [bdcMarker_length]; omega
        have hmkne : bdcMarker e.2 ≠ [] := List.length_pos.mp hmklen
        rcases hclass e he with hr1 | ⟨hr2a, hr2b⟩ | hr3
        · rw [← hee]
          dsimp only
          rw [if_pos hr1]
          exact occ_in_wrap_left hmkne hoccs (by omega)
        · rw [← hee]
          dsimp only
          rw [if_neg (by omega), if_pos hr2b]
          exact occ_in_wrap_mid hmkne hoccs (by omega) (by omega)
        · rw [← hee]
          dsimp only
          rw [if_neg (by omega), if_neg (by omega)]
          exact occ_in_wrap_right hmkne hoccs (by omega)
      · have he2 : e' = (i1, m) := by simpa using hmem
        subst he2
        dsimp only
        rw [List.append_assoc]
        have hm0 : occursAtP (bdcMarker m)
            (bdcWrap m orig ++ s.drop (i1 + orig.length)) 0 := by
          unfold occursAtP
          rw [List.drop_zero, bdcWrap, List.append_assoc, List.take_left]
        have hlift := occursAtP_append_right (s.take i1) hm0
        rw [hlenA] at hlift
        simpa using hlift
    · intro k hk
      rw [hmark] at hk
      have hmk22 : ∀ x : Nat, 22 ≤ (bdcMarker x).length := by
        intro x; rw [bdcMarker_length]; omega
      rcases probe_after_wrap (s.take i1) orig (s.drop (i1 + orig.length)) m k hk
        with h8 | ⟨hfitp, hoccp⟩ | ⟨j, hjfit, hkeq, hoccp⟩ | ⟨j, hkeq, hoccp⟩
      · refine ⟨(i1, m), List.mem_append.mpr (Or.inr (by simp)), ?_⟩
        rw [h8, hlenA]
      · rw [← hsplit] at hoccp
        obtain ⟨e, he, hke⟩ := hB k hoccp
        rcases hclass e he with hr1 | ⟨hr2a, hr2b⟩ | hr3
        · refine ⟨_, List.mem_append.mpr (Or.inl (List.mem_map.mpr ⟨e, he, rfl⟩)), ?_⟩
          dsimp only
          rw [if_pos hr1]
          exact hke
        · exfalso; omega
        · exfalso; omega
      · rw [← hsplit] at hoccp
        obtain ⟨e, he, hke⟩ := hB _ hoccp
        rcases hclass e he with hr1 | ⟨hr2a, hr2b⟩ | hr3
        · exfalso; have := hmk22 e.2; omega
        · refine ⟨_, List.mem_append.mpr (Or.inl (List.mem_map.mpr ⟨e, he, rfl⟩)), ?_⟩
          dsimp only
          rw [if_neg (by have := hmk22 e.2; omega), if_pos hr2b]
          omega
        · exfalso; omega
      · rw [← hsplit] at hoccp
        obtain ⟨e, he, hke⟩ := hB _ hoccp
        rcases hclass e he with hr1 | ⟨hr2a, hr2b⟩ | hr3
        · exfalso; have := hmk22 e.2; omega
        · exfalso; have := hmk22 e.2; omega
        · refine ⟨_, List.mem_append.mpr (Or.inl (List.mem_map.mpr ⟨e, he, rfl⟩)), ?_⟩
          dsimp only
          rw [if_neg (by have := hmk22 e.2; omega), if_neg (by have := hmk22 e.2; omega)]
          omega
    · rw [List.map_append, map_snd_pair_map]
      simp [hsr]

/-- The marking fold preserves the marker layout: starting from any tracked
layout, the final stream's probes are exactly the tracked markers, and the
tracked MCIDs are extended by the located ones. -/
theorem markPage_layout : ∀ (figs : List (Nat × String)) (s : List Char)
    (P : List (Nat × Nat)),
    (∀ e ∈ P, occursAtP (bdcMarker e.2) s e.1) →
    (∀ k, occursAtP mcidPat s k → ∃ e ∈ P, k = e.1 + 8) →
    ∃ P2 : List (Nat × Nat),
      (∀ e ∈ P2, occursAtP (bdcMarker e.2) (markPage s figs) e.1) ∧
      (∀ k, occursAtP mcidPat (markPage s figs) k → ∃ e ∈ P2, k = e.1 + 8) ∧
      P2.map Prod.snd = P.map Prod.snd ++ locatedMcids s figs := by
  intro figs
  induction figs with
  | nil =>
    intro s P hA hB
    refine ⟨P, hA, hB, ?_⟩
    simp [locatedMcids]
  | cons f t ih =>
    intro s P hA hB
    obtain ⟨P1, hA1, hB1, hsnd1⟩ := markOne_layout s P f.1 f.2 hA hB
    obtain ⟨P2, hA2, hB2, hsnd2⟩ := ih (markOne s f) P1 hA1 hB1
    refine ⟨P2, hA2, hB2, ?_⟩
    rw [hsnd2, hsnd1, List.append_assoc]
    congr 1

/-- The located MCIDs form a sublist of the loop's MCIDs. -/
theorem locatedMcids_sublist : ∀ (figs : List (Nat × String)) (s : List Char),
    List.Sublist (locatedMcids s figs) (figs.map Prod.fst) := by
  intro figs
  induction figs with
  | nil => intro s; simp [locatedMcids]
  | cons f t ih =>
    intro s
    rw [locatedMcids]
    by_cases h : (reSearch (figMatchAt f.2.data) s).isSome
    · rw [if_pos h]
      exact (ih (markOne s f)).cons₂ f.1
    · rw [if_neg h]
      exact (ih (markOne s f)).cons f.1

/-- On a content stream with no pre-existing probe, the whole marking loop
emits the marker of each distinct MCID exactly once when its iteration
located the pattern, and never otherwise. -/
theorem markPage_marker_count (content : List Char) (figs : List (Nat × String))
    (hnd : (figs.map Prod.fst).Nodup) (h0 : countOcc mcidPat content = 0) :
    ∀ m : Nat, countOcc (bdcMarker m) (markPage content figs) =
      (if m ∈ locatedMcids content figs then 1 else 0) := by
  have hPne : mcidPat ≠ [] := by decide
  obtain ⟨P2, hA2, hB2, hsnd⟩ := markPage_layout figs content []
    (by intro e he; cases he)
    (by intro k hk; exact absurd hk (not_occursAtP_of_countOcc_zero hPne h0 k))
  rw [List.map_nil, List.nil_append] at hsnd
  have hndP : (P2.map Prod.snd).Nodup := by
    rw [hsnd]
    exact (locatedMcids_sublist figs content).nodup hnd
  intro m
  have hmklen : 0 < (bdcMarker m).length := by rw [bdcMarker_length]; omega
  have hmk0 : bdcMarker m ≠ [] := List.length_pos.mp hmklen
  have hiff : ∀ k, occursAtP (bdcMarker m) (markPage content figs) k ↔
      (k, m) ∈ P2 := by
    intro k
    constructor
    · intro hk
      have hprobe := occursAtP_trans hk (occursP_at8_marker m)
        (by have h7 : mcidPat.length = 7 := rfl
            have := bdcMarker_length m
            omega)
      obtain ⟨e, he, h8⟩ := hB2 (k + 8) hprobe
      have hk1 : k = e.1 := by omega
      have hm2 : m = e.2 := bdcMarker_occ_unique (hk1 ▸ hk) (hA2 e he)
      rw [hk1, hm2]
      exact he
    · intro hk
      exact hA2 (k, m) hk
  by_cases hm : m ∈ locatedMcids content figs
  · rw [if_pos hm]
    rw [← hsnd] at hm
    obtain ⟨e0, he0, he0m⟩ := List.mem_map.mp hm
    refine countOcc_eq_one hmk0 ((hiff e0.1).mpr ?_) ?_
    · rw [← he0m]; exact he0
    · intro k hk
      have hkmem := (hiff k).mp hk
      have heq := List.inj_on_of_nodup_map hndP hkmem he0 he0m.symm
      exact congrArg Prod.fst heq
  · rw [if_neg hm]
    apply countOcc_eq_zero_of
    intro k hk
    have hkmem := (hiff k).mp hk
    have hm2 : m ∈ P2.map Prod.snd := List.mem_map.mpr ⟨(k, m), hkmem, rfl⟩
    rw [hsnd] at hm2
    exact hm hm2

/-- The kept images of a page get MCIDs `0, 1, …` in order. -/
theorem assignFigs_fst (entries : List (Nat × String × String)) :
    (assignFigs entries).map Prod.fst = List.range entries.length := by
  rw [assignFigs]
  apply List.map_fst_zip
  simp

/-- The figure list `writePage` hands to the parent tree has MCIDs
`0, 1, …` in order. -/
theorem writePage_figs_fst (am : AltMap) (p : PdfPage) :
    ((writePage am p).1).map Prod.fst = List.range (collectPage am p).length := by
  show ((assignFigs (collectPage am p)).map (fun e => (e.1, e.2.1))).map Prod.fst = _
  rw [List.map_map]
  have hc : (Prod.fst ∘ (fun e : Nat × String × String => (e.1, e.2.1))) =
      Prod.fst := by
    funext e
    rfl
  rw [hc, assignFigs_fst]



/-- In a content stream free of the probe `<</MCID`, wrapping an occurring
block leaves the probe exactly at offset 8 of the inserted marker. -/
theorem marked_probe_positions (pre orig post : List Char) (mcid : Nat)
    (h0 : countOcc mcidPat (pre ++ orig ++ post) = 0) :
    ∀ k, occursAtP mcidPat (pre ++ bdcWrap mcid orig ++ post) k ↔
      k = pre.length + 8 := by
  have hPne : mcidPat ≠ [] := by decide
  have hP7 : mcidPat.length = 7 := rfl
  have hP0 : mcidPat[0]? = some '<' := rfl
  have hnocc := not_occursAtP_of_countOcc_zero hPne h0
  have hpre0 : occursAtP pre (pre ++ orig ++ post) 0 := by
    unfold occursAtP
    rw [List.drop_zero, List.append_assoc, List.take_left]
  have horig : occursAtP orig (pre ++ orig ++ post) pre.length := by
    unfold occursAtP
    rw [List.append_assoc, List.drop_left, List.take_left]
  have hpost : occursAtP post (pre ++ orig ++ post) (pre.length + orig.length) := by
    unfold occursAtP
    rw [show pre.length + orig.length = (pre ++ orig).length from
      (List.length_append _ _).symm, List.drop_left, List.take_length]
  have hWP : bdcWrap mcid orig ++ post =
      bdcMarker mcid ++ ('\n' :: ((orig ++ '\n' :: "EMC".data) ++ post)) := by
    rw [bdcWrap, List.append_assoc, List.cons_append]
  have h16 : 16 ≤ (bdcMarker mcid).length := by
    rw [bdcMarker_eq, List.length_append]
    have : markerPre.length = 16 := rfl
    omega
  intro k
  constructor
  · intro hk
    rw [List.append_assoc] at hk
    rcases occursAtP_append_cases hk with ⟨hfit, hin⟩ | ⟨hge, hin⟩ | ⟨hlt, hgt⟩
    · exact absurd (by simpa using occursAtP_trans hpre0 hin hfit) (hnocc _)
    · rw [hWP] at hin
      rcases occursAtP_append_cases hin with ⟨hfit2, hin2⟩ | ⟨hge2, hin2⟩ | ⟨hlt2, hgt2⟩
      · have h8 := occursP_in_marker hin2
        omega
      · exfalso
        rcases occursAtP_cons (by decide) hin2 with hhead | ⟨hge3, hin3⟩
        · rw [hP0] at hhead
          exact absurd hhead (by decide)
        · have hI : (orig ++ '\n' :: "EMC".data) ++ post =
              orig ++ ('\n' :: ("EMC".data ++ post)) := by
            rw [List.append_assoc, List.cons_append]
          rw [hI] at hin3
          rcases occursAtP_append_cases hin3 with ⟨hfit4, hin4⟩ | ⟨hge4, hin4⟩ | ⟨hlt4, hgt4⟩
          · exact hnocc _ (occursAtP_trans horig hin4 hfit4)
          · rcases occursAtP_cons (by decide) hin4 with hhead | ⟨hge5, hin5⟩
            · rw [hP0] at hhead
              exact absurd hhead (by decide)
            · have hE : "EMC".data ++ post = 'E' :: 'M' :: 'C' :: post := rfl
              rw [hE] at hin5
              rcases occursAtP_cons (by decide) hin5 with hhead | ⟨-, hin6⟩
              · rw [hP0] at hhead
                exact absurd hhead (by decide)
              rcases occursAtP_cons (by decide) hin6 with hhead | ⟨-, hin7⟩
              · rw [hP0] at hhead
                exact absurd hhead (by decide)
              rcases occursAtP_cons (by decide) hin7 with hhead | ⟨-, hin8⟩
              · rw [hP0] at hhead
                exact absurd hhead (by decide)
              have hfitp := occursAtP_length _ _ _ hin8 hPne
              exact hnocc _ (occursAtP_trans hpost hin8 hfitp)
          · have hcc := cross_char hin3 hlt4 hgt4
            have hmem : '\n' ∈ mcidPat :=
              List.getElem?_mem (by rw [hcc]; exact List.getElem?_cons_zero)
            exact absurd hmem (by decide)
      · exfalso
        have hcc := cross_char hin hlt2 hgt2
        have hmem : '\n' ∈ mcidPat :=
          List.getElem?_mem (by rw [hcc]; exact List.getElem?_cons_zero)
        exact absurd hmem (by decide)
    · exfalso
      have hcc := cross_char hk hlt hgt
      have hw0 : (bdcWrap mcid orig ++ post)[0]? = some '/' := by
        rw [bdcWrap, bdcMarker_eq]
        rfl
      rw [hw0] at hcc
      obtain ⟨j0, hj0⟩ : ∃ j0, pre.length - k = j0 := ⟨_, rfl⟩
      rw [hj0] at hcc
      have hj0b : j0 < 7 := by omega
      have hj0g : 1 ≤ j0 := by omega
      interval_cases j0
      · exact absurd hcc (by decide)
      · have hch3 := occursAtP_getElem hk (show 3 < mcidPat.length by decide)
        have hk3 : k + 3 = pre.length + 1 := by omega
        rw [hk3] at hch3
        have hstep : (pre ++ (bdcWrap mcid orig ++ post))[pre.length + 1]? =
            (bdcWrap mcid orig ++ post)[1]? := by
          rw [List.getElem?_append_right (by omega)]
          congr 1
          omega
        rw [hstep] at hch3
        have h1F : (bdcWrap mcid orig ++ post)[1]? = some 'F' := by
          rw [bdcWrap, bdcMarker_eq]
          rfl
        rw [h1F] at hch3
        exact absurd hch3 (by decide)
      · exact absurd hcc (by decide)
      · exact absurd hcc (by decide)
      · exact absurd hcc (by decide)
      · exact absurd hcc (by decide)
  · rintro rfl
    rw [List.append_assoc]
    have h8W : occursAtP mcidPat (bdcWrap mcid orig ++ post) 8 := by
      rw [hWP]
      exact occursAtP_append_left _ (occursP_at8_marker mcid) (by omega)
    simpa using occursAtP_append_right pre h8W



/-- The marking step emits the MCID marker exactly once when the figure
pattern is located, and not at all otherwise (on a stream with no
pre-existing marker probe). -/
theorem markOne_marker_count (content : List Char) (mcid : Nat) (name : String)
    (h0 : countOcc mcidPat content = 0) :
    countOcc (bdcMarker mcid) (markOne content (mcid, name)) =
      (if (reSearch (figMatchAt name.data) content).isSome then 1 else 0) := by
  have hPne : mcidPat ≠ [] := by decide
  have h16 : 16 ≤ (bdcMarker mcid).length := by
    rw [bdcMarker_eq, List.length_append]
    have : markerPre.length = 16 := rfl
    omega
  have hMne : bdcMarker mcid ≠ [] := List.length_pos.mp (by omega)
  have hnocc := not_occursAtP_of_countOcc_zero hPne h0
  rcases hsr : reSearch (figMatchAt name.data) content with _ | orig
  · have hmark : markOne content (mcid, name) = content := by
      simp [markOne, hsr]
    rw [hmark, if_neg (by simp)]
    apply countOcc_eq_zero_of
    intro i hocc
    exact hnocc _ (occursAtP_trans hocc (occursP_at8_marker mcid) (by
      have : mcidPat.length = 7 := rfl
      omega))
  · rw [if_pos (show (some orig).isSome = true from rfl)]
    rcases reSearch_figMatch hsr with ⟨i, hocc_i, hne⟩
    rcases findIdx_isSome_of_occurs hne hocc_i with ⟨i1, hf⟩
    have hocc1 : occursAtP orig content i1 := findIdx_some_occurs hf
    have hmark : markOne content (mcid, name) =
        content.take i1 ++ bdcWrap mcid orig ++ content.drop (i1 + orig.length) := by
      simp [markOne, hsr, replaceFirstL, hf]
    have hsplit := occursAtP_split hocc1
    have hchar := marked_probe_positions (content.take i1) orig
      (content.drop (i1 + orig.length)) mcid (by rw [← hsplit]; exact h0)
    rw [hmark]
    apply countOcc_eq_one hMne
    · show occursAtP (bdcMarker mcid)
        (content.take i1 ++ bdcWrap mcid orig ++ content.drop (i1 + orig.length))
        (content.take i1).length
      rw [List.append_assoc]
      have hm0 : occursAtP (bdcMarker mcid)
          (bdcWrap mcid orig ++ content.drop (i1 + orig.length)) 0 := by
        unfold occursAtP
        rw [List.drop_zero, bdcWrap, List.append_assoc, List.take_left]
      simpa using occursAtP_append_right (content.take i1) hm0
    · intro kk hocc_m
      have hprobe := occursAtP_trans hocc_m (occursP_at8_marker mcid) (by
        have : mcidPat.length = 7 := rfl
        omega)
      have := (hchar (kk + 8)).mp hprobe
      omega



/-- Claim C3 counterexample: first, on a page whose content stream does
not contain the image invocation pattern, the parent tree still references
the figure with MCID 0, but NO marked-content sequence with that MCID is
emitted: the count is zero, not one. Second, on a page whose input content
stream already carries a `/Figure <</MCID 0>> BDC` marker (a pre-tagged
PDF), the writer emits its own marker around the located pattern and the
stream ends up with that MCID marked TWICE, so exactly-once fails without
the no-pre-existing-marker proviso. -/
theorem C3_unlocated_mcid_not_emitted :
    (writePage [(5, some "Ein Bild")] ⟨[⟨5, "Im1"⟩], "BT (hi) Tj ET"⟩).1 =
      [(0, "Im1")] ∧
    countOcc (bdcMarker 0)
      (writePage [(5, some "Ein Bild")] ⟨[⟨5, "Im1"⟩], "BT (hi) Tj ET"⟩).2 = 0 ∧
    countOcc (bdcMarker 0)
      (writePage [(5, some "Ein Bild")]
        ⟨[⟨5, "Im1"⟩], "/Figure <</MCID 0>> BDC\nq /Im1 Do Q\nEMC"⟩).2 = 2 := by
  refine ⟨rfl, by decide, by decide⟩

/-- Claim C3 amended: figure MCIDs on a page are `0, 1, …` in order,
hence unique; and on an input content stream with no pre-existing
`<</MCID` probe, the whole marking loop (over the full, possibly
multi-figure list, each later search running on the already-marked
stream) emits the marker of each distinct MCID exactly once when its
iteration located the `q … /Name Do Q` pattern, and zero times
otherwise; in particular this holds for every figure of the list the
parent tree references, whose unlocated entries dangle with no
marked-content sequence. -/
theorem C3_mcid_uniqueness_and_emission :
    (∀ (entries : List (Nat × String × String)),
      (assignFigs entries).map Prod.fst = List.range entries.length ∧
      ((assignFigs entries).map Prod.fst).Nodup) ∧
    (∀ (content : List Char) (figs : List (Nat × String)),
      (figs.map Prod.fst).Nodup → countOcc mcidPat content = 0 →
      ∀ mcid, countOcc (bdcMarker mcid) (markPage content figs) =
        (if mcid ∈ locatedMcids content figs then 1 else 0)) ∧
    (∀ (am : AltMap) (p : PdfPage), countOcc mcidPat p.content.data = 0 →
      ∀ fig ∈ (writePage am p).1,
        countOcc (bdcMarker fig.1) (writePage am p).2 =
          (if fig.1 ∈ locatedMcids p.content.data (writePage am p).1
            then 1 else 0)) := by
  refine ⟨?_, ?_, ?_⟩
  · intro entries
    exact ⟨assignFigs_fst entries, (assignFigs_fst entries) ▸ List.nodup_range _⟩
  · intro content figs hnd h0 mcid
    exact markPage_marker_count content figs hnd h0 mcid
  · intro am p h0 fig hfig
    have hnd : (((writePage am p).1).map Prod.fst).Nodup := by
      rw [writePage_figs_fst]
      exact List.nodup_range _
    exact markPage_marker_count p.content.data ((writePage am p).1) hnd h0 fig.1

/-- Claim C3 witness: the emission rule on a concrete two-figure page,
where the second iteration's search runs on the stream already carrying
the first figure's marker. -/
theorem C3_mcid_uniqueness_and_emission_witness :
    countOcc (bdcMarker 1)
      (markPage "q /Im1 Do Q u q /Im2 Do Q".data [(0, "Im1"), (1, "Im2")]) =
      (if 1 ∈ locatedMcids "q /Im1 Do Q u q /Im2 Do Q".data
        [(0, "Im1"), (1, "Im2")] then 1 else 0) :=
  C3_mcid_uniqueness_and_emission.2.1 "q /Im1 Do Q u q /Im2 Do Q".data
    [(0, "Im1"), (1, "Im2")] (by decide) (by decide) 1

end InkluDocs
